import Mathlib

/-!
Verification development for the `chat_converter` markdown-rendering pipeline
(`chat_converter/text_processing.py` and `chat_converter/tool_formatters.py`).

The Python code is shallowly embedded: strings are Lean `String`s (lists of
chars), JSON-like dynamic values are an inductive `Json` type, and operations
that can raise a Python exception return `Except String α`.  Each embedded
definition mirrors one Python function or a contiguous fragment of one, keeping
the source's names where possible.
-/

/-! ## Python string primitives -/

/-- Whitespace test matching Python's `str.strip` / `\s` for the ASCII range
(the only whitespace occurring in this code base). -/
def pyIsSpace (c : Char) : Bool :=
  c = ' ' || c = '\t' || c = '\n' || c = '\r' || c = '\x0b' || c = '\x0c'

/-- Remove leading whitespace from a char list (Python `str.lstrip`). -/
def wsDropLeft (l : List Char) : List Char := l.dropWhile pyIsSpace

/-- Remove trailing whitespace from a char list (Python `str.rstrip`). -/
def wsDropRight (l : List Char) : List Char := (l.reverse.dropWhile pyIsSpace).reverse

/-- Remove leading and trailing whitespace (Python `str.strip`). -/
def wsDropBoth (l : List Char) : List Char := wsDropRight (wsDropLeft l)

/-- Python `str.strip()`. -/
def pyStrip (s : String) : String := ⟨wsDropBoth s.data⟩

/-- Python `str.rstrip()`. -/
def pyRstrip (s : String) : String := ⟨wsDropRight s.data⟩

/-- Python `str.lstrip()`. -/
def pyLstrip (s : String) : String := ⟨wsDropLeft s.data⟩

/-- Index of the first occurrence of `pat` in `l` (Python `str.find`, with
`none` for "not found"). -/
def findSub (pat : List Char) : List Char → Option Nat
  | [] => if pat.isPrefixOf [] then some 0 else none
  | c :: rest =>
    if pat.isPrefixOf (c :: rest) then some 0
    else (findSub pat rest).map (· + 1)

/-- Python `pat in s` for strings. -/
def containsSub (l pat : List Char) : Bool := (findSub pat l).isSome

/-- Python `pat in s` at `String` level. -/
def strContains (s pat : String) : Bool := containsSub s.data pat.data

/-- Python `s.startswith(pre)` (char-list based so that it reduces in the
kernel). -/
def strStarts (s pre : String) : Bool := pre.data.isPrefixOf s.data

/-- Python `s.endswith(suf)`. -/
def strEnds (s suf : String) : Bool := suf.data.isSuffixOf s.data

/-- Python `s.replace(old, new, 1)`: replace the first occurrence only. -/
def replaceFirst (l old new : List Char) : List Char :=
  match findSub old l with
  | none => l
  | some i => l.take i ++ new ++ l.drop (i + old.length)

/-- Python `s.replace(old, new, 1)` at `String` level. -/
def strReplaceFirst (s old new : String) : String := ⟨replaceFirst s.data old.data new.data⟩

/-- One pass of Python `s.replace(old, new)` (all occurrences, left to right,
continuing after each replacement).  `fuel` bounds the recursion; callers pass
the length of the input, which suffices because `old` is nonempty at every
call site in the sources. -/
def replaceAllAux (old new : List Char) : Nat → List Char → List Char
  | 0, l => l
  | _ + 1, [] => []
  | fuel + 1, c :: rest =>
    if old ≠ [] && old.isPrefixOf (c :: rest) then
      new ++ replaceAllAux old new fuel ((c :: rest).drop old.length)
    else
      c :: replaceAllAux old new fuel rest

/-- Python `s.replace(old, new)` for nonempty `old`. -/
def strReplaceAll (s old new : String) : String :=
  ⟨replaceAllAux old.data new.data s.data.length s.data⟩

/-- Split a char list on `'\n'` (Python `str.split('\n')`). -/
def splitNl : List Char → List (List Char)
  | [] => [[]]
  | c :: rest =>
    if c = '\n' then [] :: splitNl rest
    else
      match splitNl rest with
      | [] => [[c]]
      | h :: t => (c :: h) :: t

/-- Join line fragments with `'\n'` (Python `'\n'.join`). -/
def joinNl : List (List Char) → List Char
  | [] => []
  | [l] => l
  | l :: ls => l ++ '\n' :: joinNl ls

/-- Python `text.split('\n')` at `String` level. -/
def strSplitNl (s : String) : List String := (splitNl s.data).map String.mk

/-- Python `'\n'.join(lines)` at `String` level. -/
def strJoinNl (ls : List String) : String := ⟨joinNl (ls.map String.data)⟩

/-! ## Backtick runs -/

/-- Auxiliary scanner: `cur` is the length of the current backtick run, `best`
the longest run seen so far. -/
def maxRunAux (cur best : Nat) : List Char → Nat
  | [] => max cur best
  | c :: rest =>
    if c = '`' then maxRunAux (cur + 1) best rest
    else maxRunAux 0 (max cur best) rest

/-- Length of the longest run of consecutive backticks in `s`
(Python ``max(len(m) for m in re.findall(r'`+', s))``, `0` when there is none). -/
def maxTickRun (s : String) : Nat := maxRunAux 0 0 s.data

/-- `s` contains a run of `k` consecutive backticks. -/
def HasRun (k : Nat) (s : String) : Prop := List.replicate k '`' <:+: s.data

/-! ## The Text Joiner: `smart_join_parts` (text_processing.py:80-124) -/

/-- First element of `parts` that is neither empty nor whitespace-only
(the `while next_idx < len(parts) ...` lookahead loop). -/
def firstNonBlank : List String → Option String
  | [] => none
  | p :: rest => if pyStrip p = "" then firstNonBlank rest else some p

/-- `part_stripped.endswith(('.', '!', '?'))`. -/
def sentenceEnd (t : String) : Bool := strEnds t "." || strEnds t "!" || strEnds t "?"

/-- `next_part.startswith('**') or next_part.startswith('#') or next_part.startswith('<details')`. -/
def paragraphStart (t : String) : Bool :=
  strStarts t "**" || strStarts t "#" || strStarts t "<details"

/-- The spacing appended after `p` when a paragraph boundary is detected:
nothing if `p` already ends in a blank line, a single `'\n'` if it ends in one
newline, else `"\n\n"`. -/
def joinPad (p : String) : String :=
  if strEnds p "\n\n" then "" else if strEnds p "\n" then "\n" else "\n\n"

/-- `smart_join_parts` (text_processing.py:80-124): concatenate the non-blank
parts, appending `joinPad` after a part whose stripped text ends a sentence
when the next non-blank part starts a paragraph. -/
def smart_join_parts : List String → String
  | [] => ""
  | p :: rest =>
    if pyStrip p = "" then smart_join_parts rest
    else
      p ++
        (match firstNonBlank rest with
          | none => ""
          | some np =>
            if sentenceEnd (pyStrip p) && paragraphStart (pyStrip np) then joinPad p
            else "") ++
        smart_join_parts rest

/-- Modelled from the spec's words (§4.2 Text Joiner), for comparison with
`smart_join_parts`: concatenate the fragments, inserting the blank-line
padding between consecutive fragments `f, g` exactly when `f`'s trimmed text
ends a sentence and `g`'s trimmed text begins a block. -/
def smartJoinSpec : List String → String
  | [] => ""
  | [f] => f
  | f :: g :: rest =>
    f ++
      (if sentenceEnd (pyStrip f) && paragraphStart (pyStrip g) then joinPad f else "") ++
      smartJoinSpec (g :: rest)

theorem firstNonBlank_eq_head_filter (l : List String) :
    firstNonBlank l = (l.filter fun p => !(pyStrip p == "")).head? := by
  induction l with
  | nil => rfl
  | cons p rest ih =>
    by_cases h : pyStrip p = ""
    · simp [firstNonBlank, h, List.filter_cons, ih]
    · have hb : (!(pyStrip p == "")) = true := by simp [h]
      simp [firstNonBlank, h, List.filter_cons, hb]

theorem smart_join_parts_all_blank (l : List String)
    (h : ∀ p ∈ l, pyStrip p = "") : smart_join_parts l = "" := by
  induction l with
  | nil => rfl
  | cons p rest ih =>
    have hp : pyStrip p = "" := h p (by simp)
    simp only [smart_join_parts, hp, if_pos rfl]
    exact ih fun q hq => h q (by simp [hq])

theorem smart_join_parts_eq_spec (parts : List String) :
    smart_join_parts parts = smartJoinSpec (parts.filter fun p => !(pyStrip p == "")) := by
  induction parts with
  | nil => rfl
  | cons p rest ih =>
    by_cases h : pyStrip p = ""
    · simp only [smart_join_parts, h, if_pos rfl, List.filter]
      simpa [h] using ih
    · have hb : (!(pyStrip p == "")) = true := by simp [h]
      have hfilter :
          (p :: rest).filter (fun p => !(pyStrip p == "")) =
            p :: rest.filter (fun p => !(pyStrip p == "")) := by
        simp [List.filter_cons, hb]
      rw [hfilter]
      simp only [smart_join_parts, h, if_neg h]
      rw [firstNonBlank_eq_head_filter]
      cases hrest : rest.filter (fun p => !(pyStrip p == "")) with
      | nil =>
        have hblank : ∀ q ∈ rest, pyStrip q = "" := by
          intro q hq
          by_contra hq'
          have : q ∈ rest.filter (fun p => !(pyStrip p == "")) :=
            List.mem_filter.mpr ⟨hq, by simpa using hq'⟩
          simp [hrest] at this
        rw [smart_join_parts_all_blank rest hblank]
        simp [smartJoinSpec]
      | cons g t =>
        simp only [List.head?]
        rw [ih, hrest]
        simp [smartJoinSpec]

/-- C6: For every ordered list of text fragments, the Text Joiner inserts a
blank line between fragment i and the next non-empty fragment exactly when
fragment i's trimmed text ends in '.', '!' or '?' and the next non-empty
fragment's trimmed text starts with '**', '#' or '<details'; in particular
joining ["Found it.", "**Next step**"] inserts a blank line and joining
["Found it", "more text"] inserts nothing.  Formalised as: `smart_join_parts`
coincides with the spec-side join (`smartJoinSpec`, which inserts the padding
between consecutive retained fragments exactly under that condition) applied
to the fragments that survive blank-skipping; plus the two concrete
instances. -/
theorem claim_C6 :
    (∀ parts : List String,
        smart_join_parts parts =
          smartJoinSpec (parts.filter fun p => !(pyStrip p == ""))) ∧
    smart_join_parts ["Found it.", "**Next step**"] = "Found it.\n\n**Next step**" ∧
    smart_join_parts ["Found it", "more text"] = "Found itmore text" :=
  ⟨smart_join_parts_eq_spec, by decide, by decide⟩

/-! ## The Fence Balancer: `balance_code_fences` (text_processing.py:127-207) -/

/-- Python `\w` (word character) for the ASCII range. -/
def isWordChar (c : Char) : Bool := c.isAlphanum || c = '_'

/-- `re.match(r'^(`{3,})(\w*)\s*$', stripped)`: three or more backticks, an
optional language word, then only whitespace.  Returns the backtick string and
the language. -/
def fenceMatch (stripped : String) : Option (String × String) :=
  let ticks := stripped.data.takeWhile (· = '`')
  if ticks.length < 3 then none
  else
    let rest := stripped.data.drop ticks.length
    let word := rest.takeWhile isWordChar
    let rest2 := rest.drop word.length
    if rest2.all pyIsSpace then some (⟨ticks⟩, ⟨word⟩) else none

/-- `re.match(r'^`+$', stripped)`: a nonempty line of only backticks. -/
def allTicks (stripped : String) : Bool :=
  !stripped.data.isEmpty && stripped.data.all (· = '`')

/-- One entry of the balancer's `fence_stack`
(`{'count': .., 'line': .., 'backticks': .., 'lang': ..}`). -/
structure Frame where
  count : Nat
  line : Nat
  backticks : String
  lang : String
deriving Repr, DecidableEq

/-- The balancer's scan state: the stack of open fences (head = top, i.e.
Python's `fence_stack[-1]`) and the `in_details` flag. -/
structure ScanSt where
  stack : List Frame
  inDetails : Bool
deriving Repr, DecidableEq

/-- One iteration of the balancer's `for i, line in enumerate(lines)` loop:
returns the updated state and the (possibly rewritten) line. -/
def processLine (i : Nat) (st : ScanSt) (line : String) : ScanSt × String :=
  let stripped := pyStrip line
  if strContains line "<details>" then ({ st with inDetails := true }, line)
  else if strContains line "</details>" then ({ st with inDetails := false }, line)
  else if st.inDetails then (st, line)
  else
    match fenceMatch stripped with
    | some (backticks, lang) =>
      if lang ≠ "" then
        ({ st with stack := ⟨backticks.length, i, backticks, lang⟩ :: st.stack }, line)
      else
        match st.stack with
        | f :: rest =>
          if f.count = backticks.length then ({ st with stack := rest }, line)
          else ({ st with stack := rest }, ⟨List.replicate f.count '`'⟩)
        | [] => (st, strReplaceFirst line backticks ("\\" ++ backticks))
    | none =>
      match st.stack, allTicks stripped with
      | f :: rest, true => ({ st with stack := rest }, ⟨List.replicate f.count '`'⟩)
      | _, _ => (st, line)

/-- The whole scan loop, threading the state over the lines (current line
index `i`). -/
def scanFences (i : Nat) (st : ScanSt) : List String → ScanSt × List String
  | [] => (st, [])
  | l :: rest =>
    let p := processLine i st l
    let q := scanFences (i + 1) p.1 rest
    (q.1, p.2 :: q.2)

/-- The boundary search of the unmatched-4+-fence repair
(`for j in range(fence['line'] + 1, len(lines))`): first index `j ≥ start`
whose line is `'---'`, or an empty line followed by a heading, or an
`<a name=` anchor. -/
def findBoundaryGo (j : Nat) : List String → Option Nat
  | [] => none
  | l :: rest =>
    let stripped := pyStrip l
    if stripped = "---" ||
        (!rest.isEmpty && l = "" &&
          strStarts (pyStrip (rest.headD "")) "#") ||
        strStarts stripped "<a name=" then some j
    else findBoundaryGo (j + 1) rest

/-- Search starting at absolute index `start` in `ls`. -/
def findBoundaryFrom (ls : List String) (start : Nat) : Option Nat :=
  findBoundaryGo start (ls.drop start)

/-- One iteration of the `for fence in fence_stack` repair loop: a 4+-backtick
unmatched opener is downgraded to three backticks and a closing fence inserted
at the first boundary (or appended); a 3-backtick opener is escaped in place.
Note the recorded `fence.line` indexes the possibly already re-shuffled list. -/
def repairOne (ls : List String) (f : Frame) : List String :=
  if 4 ≤ f.count then
    let ls1 := ls.set f.line (strReplaceFirst (ls.getD f.line "") f.backticks "```")
    match findBoundaryFrom ls1 (f.line + 1) with
    | some j => List.insertIdx j "```" ls1
    | none => ls1 ++ ["```"]
  else
    ls.set f.line (strReplaceFirst (ls.getD f.line "") f.backticks ("\\" ++ f.backticks))

/-- The initial scan state. -/
def initSt : ScanSt := ⟨[], false⟩

/-- `balance_code_fences` (text_processing.py:127-207): scan all lines, then
repair the still-open fences in stack-insertion order (bottom of the stack
first, hence `reverse` of the head-is-top representation). -/
def balance_code_fences (text : String) : String :=
  let scanned := scanFences 0 initSt (strSplitNl text)
  strJoinNl (scanned.1.stack.reverse.foldl repairOne scanned.2)

/-- A line whose stripped form matches the fence pattern. -/
def isFenceLine (l : String) : Bool := (fenceMatch (pyStrip l)).isSome

/-- A line whose stripped form consists solely of backticks. -/
def isTickLine (l : String) : Bool := allTicks (pyStrip l)

/-! ## Generic lemmas about the string primitives -/

theorem findSub_isSome_iff (pat l : List Char) :
    (findSub pat l).isSome = true ↔ pat <:+: l := by
  induction l with
  | nil =>
    by_cases h : pat = []
    · subst h; simp [findSub]
    · have h2 : pat.isPrefixOf ([] : List Char) = false := by
        cases pat with
        | nil => exact absurd rfl h
        | cons x xs => rfl
      simp [findSub, h2, List.infix_nil, h]
  | cons c rest ih =>
    simp only [findSub]
    by_cases h : pat.isPrefixOf (c :: rest)
    · have h' : pat <+: (c :: rest) := List.isPrefixOf_iff_prefix.mp h
      simp [h, h'.isInfix]
    · have h' : ¬ pat <+: (c :: rest) := fun hc => h (List.isPrefixOf_iff_prefix.mpr hc)
      have hmap : (Option.map (fun x => x + 1) (findSub pat rest)).isSome
          = (findSub pat rest).isSome := by
        cases findSub pat rest <;> rfl
      simp only [h, Bool.false_eq_true, if_false, hmap]
      rw [ih, List.infix_cons_iff]
      tauto

theorem strContains_iff (s pat : String) :
    strContains s pat = true ↔ pat.data <:+: s.data := by
  simp [strContains, containsSub, findSub_isSome_iff]

theorem strContains_eq_false (s pat : String) (c : Char) (hc : c ∈ pat.data)
    (hs : ∀ x ∈ s.data, x ≠ c) : strContains s pat = false := by
  by_contra h
  have h' : strContains s pat = true := by
    cases hcontains : strContains s pat
    · exact absurd hcontains h
    · rfl
  exact hs c ((strContains_iff s pat).mp h' |>.subset hc) rfl

theorem wsDropLeft_sandwich (a l : List Char) (ha : ∀ c ∈ a, pyIsSpace c = true)
    (hl : ∀ c, l.head? = some c → pyIsSpace c = false) :
    wsDropLeft (a ++ l) = l := by
  induction a with
  | nil =>
    cases l with
    | nil => rfl
    | cons x xs =>
      have := hl x rfl
      simp [wsDropLeft, List.dropWhile_cons, this]
  | cons c a' ih =>
    have hc := ha c (by simp)
    simp only [List.cons_append, wsDropLeft, List.dropWhile_cons, hc, if_pos]
    exact ih fun x hx => ha x (by simp [hx])

theorem wsDropRight_sandwich (l b : List Char) (hb : ∀ c ∈ b, pyIsSpace c = true)
    (hl : ∀ c, l.getLast? = some c → pyIsSpace c = false) :
    wsDropRight (l ++ b) = l := by
  unfold wsDropRight
  rw [List.reverse_append]
  have h1 : wsDropLeft (b.reverse ++ l.reverse) = l.reverse :=
    wsDropLeft_sandwich b.reverse l.reverse (fun c hc => hb c (by simpa using hc))
      (fun c hc => hl c (by rwa [List.head?_reverse] at hc))
  simp only [wsDropLeft] at h1
  rw [h1, List.reverse_reverse]

theorem wsDropBoth_sandwich (a m b : List Char) (hm : m ≠ [])
    (ha : ∀ c ∈ a, pyIsSpace c = true) (hb : ∀ c ∈ b, pyIsSpace c = true)
    (hh : ∀ c, m.head? = some c → pyIsSpace c = false)
    (hl : ∀ c, m.getLast? = some c → pyIsSpace c = false) :
    wsDropBoth (a ++ m ++ b) = m := by
  unfold wsDropBoth
  rw [List.append_assoc]
  have h1 : wsDropLeft (a ++ (m ++ b)) = m ++ b := by
    apply wsDropLeft_sandwich a (m ++ b) ha
    intro c hc
    cases m with
    | nil => exact absurd rfl hm
    | cons y ys => exact hh c (by simpa using hc)
  simp only [wsDropLeft] at h1
  simp only [wsDropLeft]
  rw [h1]
  exact wsDropRight_sandwich m b hb hl

theorem dropWhile_head_not {p : Char → Bool} {l : List Char} {c : Char}
    (h : (List.dropWhile p l).head? = some c) : p c = false := by
  induction l with
  | nil => simp [List.dropWhile] at h
  | cons x xs ih =>
    rw [List.dropWhile_cons] at h
    by_cases hx : p x
    · rw [if_pos hx] at h; exact ih h
    · rw [if_neg hx] at h
      simp only [List.head?_cons, Option.some.injEq] at h
      subst h
      exact Bool.eq_false_iff.mpr hx

theorem prefix_head?_eq {l₁ l₂ : List Char} (h : l₁ <+: l₂) (hne : l₁ ≠ []) :
    l₂.head? = l₁.head? := by
  obtain ⟨t, rfl⟩ := h
  cases l₁ with
  | nil => exact absurd rfl hne
  | cons x xs => rfl

theorem wsDropRight_prefix (l : List Char) : wsDropRight l <+: l := by
  unfold wsDropRight
  conv_rhs => rw [← List.reverse_reverse l]
  rw [List.reverse_prefix]
  exact List.dropWhile_suffix pyIsSpace

theorem pyStrip_decomp (s : String) :
    ∃ a b, s.data = a ++ (pyStrip s).data ++ b ∧
      (∀ c ∈ a, pyIsSpace c = true) ∧ (∀ c ∈ b, pyIsSpace c = true) := by
  refine ⟨s.data.takeWhile pyIsSpace,
    ((wsDropLeft s.data).reverse.takeWhile pyIsSpace).reverse, ?_, ?_, ?_⟩
  · show s.data = _ ++ (wsDropBoth s.data) ++ _
    unfold wsDropBoth wsDropRight
    conv_lhs => rw [← List.takeWhile_append_dropWhile (p := pyIsSpace) (l := s.data)]
    rw [List.append_assoc]
    congr 1
    show wsDropLeft s.data = _
    conv_lhs => rw [← List.reverse_reverse (wsDropLeft s.data)]
    conv_lhs =>
      rw [← List.takeWhile_append_dropWhile (p := pyIsSpace) (l := (wsDropLeft s.data).reverse)]
    rw [List.reverse_append]
  · exact fun c hc => List.mem_takeWhile_imp hc
  · intro c hc
    rw [List.mem_reverse] at hc
    exact List.mem_takeWhile_imp hc

theorem pyStrip_head_not_ws (s : String) (c : Char)
    (h : (pyStrip s).data.head? = some c) : pyIsSpace c = false := by
  have h1 : (pyStrip s).data = wsDropRight (wsDropLeft s.data) := rfl
  rw [h1] at h
  have hpre : wsDropRight (wsDropLeft s.data) <+: wsDropLeft s.data :=
    wsDropRight_prefix _
  have hne : wsDropRight (wsDropLeft s.data) ≠ [] := by
    intro hnil; rw [hnil] at h; simp at h
  have h2 := prefix_head?_eq hpre hne
  rw [h] at h2
  simp only [wsDropLeft] at h2
  exact dropWhile_head_not h2

theorem pyStrip_last_not_ws (s : String) (c : Char)
    (h : (pyStrip s).data.getLast? = some c) : pyIsSpace c = false := by
  have h1 : (pyStrip s).data = (List.dropWhile pyIsSpace (wsDropLeft s.data).reverse).reverse :=
    rfl
  rw [h1, List.getLast?_reverse] at h
  exact dropWhile_head_not h

/-- The string of `n` backticks. -/
def tickStr (n : Nat) : String := ⟨List.replicate n '`'⟩

theorem pyStrip_tickStr (n : Nat) : pyStrip (tickStr n) = tickStr n := by
  cases n with
  | zero => rfl
  | succ m =>
    show (⟨wsDropBoth (List.replicate (m + 1) '`')⟩ : String) = _
    rw [show List.replicate (m + 1) '`' = [] ++ List.replicate (m + 1) '`' ++ [] by simp]
    rw [wsDropBoth_sandwich [] (List.replicate (m + 1) '`') [] (by simp) (by simp) (by simp)]
    · rfl
    · intro c hc
      rw [List.head?_replicate] at hc
      simp only [Nat.add_eq_zero, Nat.succ_ne_zero, and_false, if_false,
        Option.some.injEq] at hc
      subst hc; decide
    · intro c hc
      have := List.mem_of_getLast?_eq_some hc
      rw [List.eq_of_mem_replicate this]; decide

theorem tickStr_not_contains (n : Nat) (pat : String) (hc : '<' ∈ pat.data) :
    strContains (tickStr n) pat = false := by
  apply strContains_eq_false _ _ '<' hc
  intro x hx
  rw [List.eq_of_mem_replicate hx]; decide

theorem fenceMatch_tickStr (n : Nat) (h : 3 ≤ n) :
    fenceMatch (tickStr n) = some (tickStr n, "") := by
  have h3 : ¬ (n < 3) := by omega
  simp [fenceMatch, tickStr, List.takeWhile_replicate, List.drop_replicate, h3]

theorem allTicks_tickStr (n : Nat) (h : 1 ≤ n) : allTicks (tickStr n) = true := by
  unfold allTicks
  simp only [tickStr]
  cases n with
  | zero => omega
  | succ m =>
    simp only [Bool.and_eq_true, Bool.not_eq_true']
    constructor
    · simp [List.isEmpty_iff]
    · rw [List.all_eq_true]
      intro x hx
      simp [List.eq_of_mem_replicate hx]

/-! ## Lemmas about one balancer step -/

/-- All open frames carry a backtick count of at least 3 (they were pushed by
a `{3,}` match). -/
def stackOk (st : ScanSt) : Prop := ∀ f ∈ st.stack, 3 ≤ f.count

theorem tickStr_length (n : Nat) : (tickStr n).length = n := by
  simp [tickStr, String.length]

theorem drop_length_takeWhile (p : Char → Bool) (l : List Char) :
    l.drop (l.takeWhile p).length = l.dropWhile p := by
  induction l with
  | nil => rfl
  | cons c rest ih =>
    rw [List.takeWhile_cons, List.dropWhile_cons]
    by_cases h : p c
    · simp only [h, if_pos, List.length_cons, List.drop_succ_cons, ih]
    · simp [h]

theorem fenceMatch_eq_some (s bt lang : String) (h : fenceMatch s = some (bt, lang)) :
    3 ≤ bt.data.length ∧ (∀ c ∈ bt.data, c = '`') ∧
      ∃ t, s.data = bt.data ++ lang.data ++ t ∧ ∀ c ∈ t, pyIsSpace c = true := by
  unfold fenceMatch at h
  by_cases h3 : (s.data.takeWhile (· = '`')).length < 3
  · simp only [h3, if_pos] at h; cases h
  · simp only [h3, Bool.false_eq_true, if_false] at h
    by_cases hall :
        ((s.data.drop (s.data.takeWhile (· = '`')).length).drop
          ((s.data.drop (s.data.takeWhile (· = '`')).length).takeWhile isWordChar).length).all
          pyIsSpace = true
    · rw [if_pos hall] at h
      injection h with h
      injection h with hbt hlang
      subst hbt; subst hlang
      refine ⟨show 3 ≤ (s.data.takeWhile (· = '`')).length by omega, ?_, ?_⟩
      · intro c hc
        have := List.mem_takeWhile_imp hc
        simpa using this
      · refine ⟨(s.data.drop (s.data.takeWhile (· = '`')).length).drop
            ((s.data.drop (s.data.takeWhile (· = '`')).length).takeWhile isWordChar).length,
            ?_, ?_⟩
        · have e1 : s.data =
              s.data.takeWhile (· = '`') ++ s.data.drop (s.data.takeWhile (· = '`')).length := by
            rw [drop_length_takeWhile, List.takeWhile_append_dropWhile]
          have e2 : s.data.drop (s.data.takeWhile (· = '`')).length =
              (s.data.drop (s.data.takeWhile (· = '`')).length).takeWhile isWordChar ++
                (s.data.drop (s.data.takeWhile (· = '`')).length).drop
                  ((s.data.drop (s.data.takeWhile (· = '`')).length).takeWhile
                    isWordChar).length := by
            rw [drop_length_takeWhile (p := isWordChar), List.takeWhile_append_dropWhile]
          show s.data =
            s.data.takeWhile (· = '`') ++
              (s.data.drop (s.data.takeWhile (· = '`')).length).takeWhile isWordChar ++ _
          rw [List.append_assoc, ← e2, ← e1]
        · intro c hc
          rw [List.all_eq_true] at hall
          exact hall c hc
    · rw [if_neg hall] at h; cases h

theorem fenceMatch_pyStrip_lang_empty (l bt : String)
    (h : fenceMatch (pyStrip l) = some (bt, "")) :
    (pyStrip l).data = bt.data ∧ (∀ c ∈ bt.data, c = '`') ∧ 3 ≤ bt.data.length := by
  obtain ⟨h3, hticks, t, hdecomp, hws⟩ := fenceMatch_eq_some _ _ _ h
  have hdata : (pyStrip l).data = bt.data ++ t := by simpa using hdecomp
  have ht : t = [] := by
    rcases List.eq_nil_or_concat t with rfl | ⟨t', c, rfl⟩
    · rfl
    · exfalso
      have hlast : (pyStrip l).data.getLast? = some c := by
        rw [hdata, List.concat_eq_append, ← List.append_assoc, List.getLast?_concat]
      have := pyStrip_last_not_ws l c hlast
      have hc := hws c (by simp)
      rw [this] at hc; cases hc
  subst ht
  exact ⟨by simpa using hdata, hticks, h3⟩

theorem findSub_sandwich (a pat rest : List Char) (hpat : pat ≠ [])
    (hhead : ∀ c, pat.head? = some c → pyIsSpace c = false)
    (ha : ∀ c ∈ a, pyIsSpace c = true) :
    findSub pat (a ++ pat ++ rest) = some a.length := by
  induction a with
  | nil =>
    cases pat with
    | nil => exact absurd rfl hpat
    | cons p pt =>
      have : (p :: pt).isPrefixOf ((p :: pt) ++ rest) = true :=
        List.isPrefixOf_iff_prefix.mpr (List.prefix_append _ _)
      simp only [List.nil_append, findSub]
      rw [if_pos]
      · rfl
      · exact this
  | cons c a' ih =>
    cases pat with
    | nil => exact absurd rfl hpat
    | cons p pt =>
      have hc : pyIsSpace c = true := ha c (by simp)
      have hp : pyIsSpace p = false := hhead p rfl
      have hne : (p == c) = false := by
        apply beq_eq_false_iff_ne.mpr
        intro hpc
        rw [hpc, hc] at hp; cases hp
      have hnp : (p :: pt).isPrefixOf (c :: (a' ++ (p :: pt) ++ rest)) = false := by
        simp only [List.isPrefixOf, hne, Bool.false_and]
      simp only [List.cons_append, findSub, hnp, Bool.false_eq_true, if_false,
        List.append_eq]
      rw [ih (fun x hx => ha x (by simp [hx]))]
      rfl

theorem str_length_data (s : String) : s.length = s.data.length := rfl

theorem processLine_d1 (i : Nat) (st : ScanSt) (l : String)
    (h1 : strContains l "<details>" = true) :
    processLine i st l = ({ st with inDetails := true }, l) := by
  simp [processLine, h1]

theorem processLine_d2 (i : Nat) (st : ScanSt) (l : String)
    (h1 : strContains l "<details>" = false) (h2 : strContains l "</details>" = true) :
    processLine i st l = ({ st with inDetails := false }, l) := by
  simp [processLine, h1, h2]

theorem processLine_inD (i : Nat) (st : ScanSt) (l : String)
    (h1 : strContains l "<details>" = false) (h2 : strContains l "</details>" = false)
    (h3 : st.inDetails = true) :
    processLine i st l = (st, l) := by
  simp [processLine, h1, h2, h3]

theorem processLine_push (i : Nat) (st : ScanSt) (l : String) (bt lang : String)
    (h1 : strContains l "<details>" = false) (h2 : strContains l "</details>" = false)
    (h3 : st.inDetails = false) (hfm : fenceMatch (pyStrip l) = some (bt, lang))
    (hlang : lang ≠ "") :
    processLine i st l =
      ({ st with stack := ⟨bt.length, i, bt, lang⟩ :: st.stack }, l) := by
  simp [processLine, h1, h2, h3, hfm, hlang]

theorem processLine_close_eq (i : Nat) (st : ScanSt) (l : String) (bt : String)
    (f : Frame) (rest : List Frame)
    (h1 : strContains l "<details>" = false) (h2 : strContains l "</details>" = false)
    (h3 : st.inDetails = false) (hfm : fenceMatch (pyStrip l) = some (bt, ""))
    (hstk : st.stack = f :: rest) (hcnt : f.count = bt.length) :
    processLine i st l = ({ st with stack := rest }, l) := by
  simp [processLine, h1, h2, h3, hfm, hstk, hcnt]

theorem processLine_close_ne (i : Nat) (st : ScanSt) (l : String) (bt : String)
    (f : Frame) (rest : List Frame)
    (h1 : strContains l "<details>" = false) (h2 : strContains l "</details>" = false)
    (h3 : st.inDetails = false) (hfm : fenceMatch (pyStrip l) = some (bt, ""))
    (hstk : st.stack = f :: rest) (hcnt : f.count ≠ bt.length) :
    processLine i st l = ({ st with stack := rest }, tickStr f.count) := by
  simp [processLine, h1, h2, h3, hfm, hstk, hcnt, tickStr]

theorem processLine_escape (i : Nat) (st : ScanSt) (l : String) (bt : String)
    (h1 : strContains l "<details>" = false) (h2 : strContains l "</details>" = false)
    (h3 : st.inDetails = false) (hfm : fenceMatch (pyStrip l) = some (bt, ""))
    (hstk : st.stack = []) :
    processLine i st l = (st, strReplaceFirst l bt ("\\" ++ bt)) := by
  simp [processLine, h1, h2, h3, hfm, hstk]

theorem processLine_bare (i : Nat) (st : ScanSt) (l : String)
    (f : Frame) (rest : List Frame)
    (h1 : strContains l "<details>" = false) (h2 : strContains l "</details>" = false)
    (h3 : st.inDetails = false) (hfm : fenceMatch (pyStrip l) = none)
    (hstk : st.stack = f :: rest) (ht : allTicks (pyStrip l) = true) :
    processLine i st l = ({ st with stack := rest }, tickStr f.count) := by
  simp [processLine, h1, h2, h3, hfm, hstk, ht, tickStr]

theorem processLine_none (i : Nat) (st : ScanSt) (l : String)
    (h1 : strContains l "<details>" = false) (h2 : strContains l "</details>" = false)
    (h3 : st.inDetails = false) (hfm : fenceMatch (pyStrip l) = none)
    (h : st.stack = [] ∨ allTicks (pyStrip l) = false) :
    processLine i st l = (st, l) := by
  rcases h with hstk | ht
  · simp [processLine, h1, h2, h3, hfm, hstk]
  · cases hstk : st.stack with
    | nil => simp [processLine, h1, h2, h3, hfm, hstk]
    | cons f rest => simp [processLine, h1, h2, h3, hfm, hstk, ht]

theorem ws_ne_lt {x : Char} (h : pyIsSpace x = true) : x ≠ '<' := by
  intro hx; subst hx; simp [pyIsSpace] at h

theorem processLine_stackOk (i : Nat) (st : ScanSt) (l : String) (h : stackOk st) :
    stackOk (processLine i st l).1 := by
  by_cases h1 : strContains l "<details>" = true
  · rw [processLine_d1 i st l h1]; exact h
  rw [Bool.not_eq_true] at h1
  by_cases h2 : strContains l "</details>" = true
  · rw [processLine_d2 i st l h1 h2]; exact h
  rw [Bool.not_eq_true] at h2
  by_cases h3 : st.inDetails = true
  · rw [processLine_inD i st l h1 h2 h3]; exact h
  rw [Bool.not_eq_true] at h3
  cases hfm : fenceMatch (pyStrip l) with
  | none =>
    by_cases ht : allTicks (pyStrip l) = true
    · cases hstk : st.stack with
      | nil => rw [processLine_none i st l h1 h2 h3 hfm (Or.inl hstk)]; exact h
      | cons f rest =>
        rw [processLine_bare i st l f rest h1 h2 h3 hfm hstk ht]
        intro g hg
        exact h g (by rw [hstk]; exact List.mem_cons_of_mem f hg)
    · rw [Bool.not_eq_true] at ht
      rw [processLine_none i st l h1 h2 h3 hfm (Or.inr ht)]; exact h
  | some p =>
    obtain ⟨bt, lang⟩ := p
    by_cases hlang : lang = ""
    · subst hlang
      cases hstk : st.stack with
      | nil => rw [processLine_escape i st l bt h1 h2 h3 hfm hstk]; exact h
      | cons f rest =>
        by_cases hcnt : f.count = bt.length
        · rw [processLine_close_eq i st l bt f rest h1 h2 h3 hfm hstk hcnt]
          intro g hg
          exact h g (by rw [hstk]; exact List.mem_cons_of_mem f hg)
        · rw [processLine_close_ne i st l bt f rest h1 h2 h3 hfm hstk hcnt]
          intro g hg
          exact h g (by rw [hstk]; exact List.mem_cons_of_mem f hg)
    · rw [processLine_push i st l bt lang h1 h2 h3 hfm hlang]
      intro g hg
      rcases List.mem_cons.mp hg with rfl | hg
      · have h4 := (fenceMatch_eq_some _ _ _ hfm).1
        show 3 ≤ bt.length
        rw [str_length_data]
        exact h4
      · exact h g hg

theorem mem_replaceFirst {l old new : List Char} {x : Char}
    (h : x ∈ replaceFirst l old new) : x ∈ l ∨ x ∈ new := by
  unfold replaceFirst at h
  cases hfs : findSub old l with
  | none => rw [hfs] at h; exact Or.inl h
  | some j =>
    rw [hfs] at h
    rcases List.mem_append.mp h with h' | h'
    · rcases List.mem_append.mp h' with h'' | h''
      · exact Or.inl (List.take_subset _ _ h'')
      · exact Or.inr h''
    · exact Or.inl (List.drop_subset _ _ h')

theorem tickStr_mem {n : Nat} {x : Char} (h : x ∈ (tickStr n).data) : x = '`' :=
  List.eq_of_mem_replicate h

/-- The line emitted by a step is the input line, a pure backtick rewrite, or
the backslash-escape of the input line. -/
theorem processLine_shape (i : Nat) (st : ScanSt) (l : String) :
    (processLine i st l).2 = l
    ∨ (∃ f rest, st.stack = f :: rest ∧ (processLine i st l).2 = tickStr f.count)
    ∨ (∃ bt, fenceMatch (pyStrip l) = some (bt, "") ∧ st.stack = [] ∧
        (processLine i st l).2 = strReplaceFirst l bt ("\\" ++ bt)) := by
  by_cases h1 : strContains l "<details>" = true
  · rw [processLine_d1 i st l h1]; exact Or.inl rfl
  rw [Bool.not_eq_true] at h1
  by_cases h2 : strContains l "</details>" = true
  · rw [processLine_d2 i st l h1 h2]; exact Or.inl rfl
  rw [Bool.not_eq_true] at h2
  by_cases h3 : st.inDetails = true
  · rw [processLine_inD i st l h1 h2 h3]; exact Or.inl rfl
  rw [Bool.not_eq_true] at h3
  cases hfm : fenceMatch (pyStrip l) with
  | none =>
    by_cases ht : allTicks (pyStrip l) = true
    · cases hstk : st.stack with
      | nil => rw [processLine_none i st l h1 h2 h3 hfm (Or.inl hstk)]; exact Or.inl rfl
      | cons f rest =>
        rw [processLine_bare i st l f rest h1 h2 h3 hfm hstk ht]
        exact Or.inr (Or.inl ⟨f, rest, hstk ▸ rfl, rfl⟩)
    · rw [Bool.not_eq_true] at ht
      rw [processLine_none i st l h1 h2 h3 hfm (Or.inr ht)]; exact Or.inl rfl
  | some p =>
    obtain ⟨bt, lang⟩ := p
    by_cases hlang : lang = ""
    · subst hlang
      cases hstk : st.stack with
      | nil =>
        rw [processLine_escape i st l bt h1 h2 h3 hfm hstk]
        exact Or.inr (Or.inr ⟨bt, hfm ▸ rfl, hstk ▸ rfl, rfl⟩)
      | cons f rest =>
        by_cases hcnt : f.count = bt.length
        · rw [processLine_close_eq i st l bt f rest h1 h2 h3 hfm hstk hcnt]; exact Or.inl rfl
        · rw [processLine_close_ne i st l bt f rest h1 h2 h3 hfm hstk hcnt]
          exact Or.inr (Or.inl ⟨f, rest, hstk ▸ rfl, rfl⟩)
    · rw [processLine_push i st l bt lang h1 h2 h3 hfm hlang]; exact Or.inl rfl

theorem processLine_keep (i : Nat) (st : ScanSt) (l : String)
    (hf : isFenceLine l = false) (ht : isTickLine l = false) :
    (processLine i st l).2 = l := by
  have hfm : fenceMatch (pyStrip l) = none := by
    unfold isFenceLine at hf
    exact Option.not_isSome_iff_eq_none.mp (by simp [hf])
  unfold isTickLine at ht
  by_cases h1 : strContains l "<details>" = true
  · rw [processLine_d1 i st l h1]
  rw [Bool.not_eq_true] at h1
  by_cases h2 : strContains l "</details>" = true
  · rw [processLine_d2 i st l h1 h2]
  rw [Bool.not_eq_true] at h2
  by_cases h3 : st.inDetails = true
  · rw [processLine_inD i st l h1 h2 h3]
  rw [Bool.not_eq_true] at h3
  rw [processLine_none i st l h1 h2 h3 hfm (Or.inr ht)]

theorem processLine_no_nl (i : Nat) (st : ScanSt) (l : String) (h : '\n' ∉ l.data) :
    '\n' ∉ (processLine i st l).2.data := by
  rcases processLine_shape i st l with heq | ⟨f, rest, _, heq⟩ | ⟨bt, hfm, _, heq⟩
  · rw [heq]; exact h
  · rw [heq]
    intro hmem
    exact absurd (tickStr_mem hmem) (by decide)
  · rw [heq]
    intro hmem
    have hm := mem_replaceFirst (show '\n' ∈ replaceFirst l.data bt.data ("\\" ++ bt).data
      from hmem)
    rcases hm with hm | hm
    · exact h hm
    · rw [String.data_append] at hm
      rcases List.mem_append.mp hm with hm | hm
      · simp only [show ("\\" : String).data = ['\\'] from rfl, List.mem_singleton] at hm
        exact absurd hm (by decide)
      · exact absurd ((fenceMatch_eq_some _ _ _ hfm).2.1 _ hm) (by decide)

theorem escape_rerun (i : Nat) (st : ScanSt) (l bt : String)
    (h3 : st.inDetails = false)
    (hfm : fenceMatch (pyStrip l) = some (bt, ""))
    (hstk : st.stack = []) :
    processLine i st (strReplaceFirst l bt ("\\" ++ bt)) =
      (st, strReplaceFirst l bt ("\\" ++ bt)) := by
  obtain ⟨hsd, hticks, hlen⟩ := fenceMatch_pyStrip_lang_empty l bt hfm
  obtain ⟨a, b, hdecomp, ha, hb⟩ := pyStrip_decomp l
  rw [hsd] at hdecomp
  have hbtne : bt.data ≠ [] := by
    intro hn; rw [hn] at hlen; simp at hlen
  have hhead : ∀ c, bt.data.head? = some c → pyIsSpace c = false := by
    intro c hc
    cases hd : bt.data with
    | nil => rw [hd] at hc; cases hc
    | cons x xs =>
      rw [hd] at hc
      injection hc with hc
      subst hc
      rw [hticks x (by rw [hd]; exact List.mem_cons_self x xs)]
      decide
  have hfind : findSub bt.data l.data = some a.length := by
    rw [hdecomp]; exact findSub_sandwich a bt.data b hbtne hhead ha
  have hnew : ("\\" ++ bt).data = '\\' :: bt.data := by rw [String.data_append]; rfl
  have hdata : (strReplaceFirst l bt ("\\" ++ bt)).data = a ++ ('\\' :: bt.data) ++ b := by
    show replaceFirst l.data bt.data ("\\" ++ bt).data = _
    rw [hnew]
    unfold replaceFirst
    simp only [hfind]
    have htake : List.take a.length (a ++ bt.data ++ b) = a := by
      rw [List.append_assoc]; exact List.take_left a _
    have hdrop : List.drop (a.length + bt.data.length) (a ++ bt.data ++ b) = b := by
      rw [List.append_assoc, ← List.drop_drop, List.drop_left, List.drop_left]
    rw [hdecomp, htake, hdrop]
  have hmemchar : ∀ x ∈ (strReplaceFirst l bt ("\\" ++ bt)).data,
      pyIsSpace x = true ∨ x = '\\' ∨ x = '`' := by
    intro x hx
    rw [hdata] at hx
    rcases List.mem_append.mp hx with hx | hx
    · rcases List.mem_append.mp hx with hx | hx
      · exact Or.inl (ha x hx)
      · rcases List.mem_cons.mp hx with rfl | hx
        · exact Or.inr (Or.inl rfl)
        · exact Or.inr (Or.inr (hticks x hx))
    · exact Or.inl (hb x hx)
  have hc1 : strContains (strReplaceFirst l bt ("\\" ++ bt)) "<details>" = false := by
    apply strContains_eq_false _ _ '<' (by decide)
    intro x hx
    rcases hmemchar x hx with hws | rfl | rfl
    · exact ws_ne_lt hws
    · decide
    · decide
  have hc2 : strContains (strReplaceFirst l bt ("\\" ++ bt)) "</details>" = false := by
    apply strContains_eq_false _ _ '<' (by decide)
    intro x hx
    rcases hmemchar x hx with hws | rfl | rfl
    · exact ws_ne_lt hws
    · decide
    · decide
  have hps : pyStrip (strReplaceFirst l bt ("\\" ++ bt)) = ⟨'\\' :: bt.data⟩ := by
    show (⟨wsDropBoth (strReplaceFirst l bt ("\\" ++ bt)).data⟩ : String) = _
    rw [hdata]
    rw [wsDropBoth_sandwich a ('\\' :: bt.data) b (by simp) ha hb ?hh ?hl]
    case hh =>
      intro c hc
      injection hc with hc
      subst hc; decide
    case hl =>
      intro c hc
      have hcm := List.mem_of_getLast?_eq_some hc
      rcases List.mem_cons.mp hcm with rfl | hcm
      · decide
      · rw [hticks c hcm]; decide
  have hfm' : fenceMatch (pyStrip (strReplaceFirst l bt ("\\" ++ bt))) = none := by
    rw [hps]
    unfold fenceMatch
    simp [List.takeWhile_cons]
  have ht' : allTicks (pyStrip (strReplaceFirst l bt ("\\" ++ bt))) = false := by
    rw [hps]
    simp [allTicks]
  exact processLine_none i st _ hc1 hc2 h3 hfm' (Or.inl hstk)

theorem processLine_idem (i : Nat) (st : ScanSt) (l : String) (h : stackOk st) :
    processLine i st (processLine i st l).2 = processLine i st l := by
  by_cases h1 : strContains l "<details>" = true
  · rw [processLine_d1 i st l h1]; exact processLine_d1 i st l h1
  rw [Bool.not_eq_true] at h1
  by_cases h2 : strContains l "</details>" = true
  · rw [processLine_d2 i st l h1 h2]; exact processLine_d2 i st l h1 h2
  rw [Bool.not_eq_true] at h2
  by_cases h3 : st.inDetails = true
  · rw [processLine_inD i st l h1 h2 h3]; exact processLine_inD i st l h1 h2 h3
  rw [Bool.not_eq_true] at h3
  cases hfm : fenceMatch (pyStrip l) with
  | none =>
    by_cases ht : allTicks (pyStrip l) = true
    · cases hstk : st.stack with
      | nil =>
        rw [processLine_none i st l h1 h2 h3 hfm (Or.inl hstk)]
        exact processLine_none i st l h1 h2 h3 hfm (Or.inl hstk)
      | cons f rest =>
        rw [processLine_bare i st l f rest h1 h2 h3 hfm hstk ht]
        have hn : 3 ≤ f.count := h f (by rw [hstk]; exact List.mem_cons_self f rest)
        exact processLine_close_eq i st (tickStr f.count) (tickStr f.count) f rest
          (tickStr_not_contains _ _ (by decide))
          (tickStr_not_contains _ _ (by decide))
          h3
          (by rw [pyStrip_tickStr]; exact fenceMatch_tickStr _ hn)
          hstk
          (by rw [tickStr_length])
    · rw [Bool.not_eq_true] at ht
      rw [processLine_none i st l h1 h2 h3 hfm (Or.inr ht)]
      exact processLine_none i st l h1 h2 h3 hfm (Or.inr ht)
  | some p =>
    obtain ⟨bt, lang⟩ := p
    by_cases hlang : lang = ""
    · subst hlang
      cases hstk : st.stack with
      | nil =>
        rw [processLine_escape i st l bt h1 h2 h3 hfm hstk]
        exact escape_rerun i st l bt h3 hfm hstk
      | cons f rest =>
        by_cases hcnt : f.count = bt.length
        · rw [processLine_close_eq i st l bt f rest h1 h2 h3 hfm hstk hcnt]
          exact processLine_close_eq i st l bt f rest h1 h2 h3 hfm hstk hcnt
        · rw [processLine_close_ne i st l bt f rest h1 h2 h3 hfm hstk hcnt]
          have hn : 3 ≤ f.count := h f (by rw [hstk]; exact List.mem_cons_self f rest)
          exact processLine_close_eq i st (tickStr f.count) (tickStr f.count) f rest
            (tickStr_not_contains _ _ (by decide))
            (tickStr_not_contains _ _ (by decide))
            h3
            (by rw [pyStrip_tickStr]; exact fenceMatch_tickStr _ hn)
            hstk
            (by rw [tickStr_length])
    · rw [processLine_push i st l bt lang h1 h2 h3 hfm hlang]
      exact processLine_push i st l bt lang h1 h2 h3 hfm hlang

/-! ## Lemmas about the whole scan and the repair phase -/

theorem scanFences_cons (i : Nat) (st : ScanSt) (l : String) (rest : List String) :
    scanFences i st (l :: rest) =
      ((scanFences (i + 1) (processLine i st l).1 rest).1,
        (processLine i st l).2 :: (scanFences (i + 1) (processLine i st l).1 rest).2) := rfl

theorem scanFences_stackOk :
    ∀ (ls : List String) (i : Nat) (st : ScanSt), stackOk st → stackOk (scanFences i st ls).1 := by
  intro ls
  induction ls with
  | nil => intro i st h; exact h
  | cons l rest ih =>
    intro i st h
    rw [scanFences_cons]
    exact ih (i + 1) _ (processLine_stackOk i st l h)

theorem scanFences_idem :
    ∀ (ls : List String) (i : Nat) (st : ScanSt), stackOk st →
      scanFences i st (scanFences i st ls).2 = scanFences i st ls := by
  intro ls
  induction ls with
  | nil => intro i st _; rfl
  | cons l rest ih =>
    intro i st h
    conv_lhs => rw [scanFences_cons i st l rest]
    rw [scanFences_cons i st ((processLine i st l).2)]
    rw [processLine_idem i st l h]
    rw [ih (i + 1) (processLine i st l).1 (processLine_stackOk i st l h)]
    rw [scanFences_cons]

theorem scanFences_length :
    ∀ (ls : List String) (i : Nat) (st : ScanSt),
      (scanFences i st ls).2.length = ls.length := by
  intro ls
  induction ls with
  | nil => intro i st; rfl
  | cons l rest ih =>
    intro i st
    rw [scanFences_cons]
    simp [ih]

theorem scanFences_get_keep :
    ∀ (ls : List String) (i : Nat) (st : ScanSt) (j : Nat) (l : String),
      ls[j]? = some l → isFenceLine l = false → isTickLine l = false →
      (scanFences i st ls).2[j]? = some l := by
  intro ls
  induction ls with
  | nil => intro i st j l h; simp at h
  | cons l0 rest ih =>
    intro i st j l h hf ht
    rw [scanFences_cons]
    cases j with
    | zero =>
      rw [List.getElem?_cons_zero] at h
      injection h with h
      subst h
      rw [List.getElem?_cons_zero, processLine_keep i st l0 hf ht]
    | succ k =>
      rw [List.getElem?_cons_succ] at h ⊢
      exact ih (i + 1) _ k l h hf ht

theorem scanFences_no_nl :
    ∀ (ls : List String) (i : Nat) (st : ScanSt),
      (∀ l ∈ ls, '\n' ∉ l.data) → ∀ l' ∈ (scanFences i st ls).2, '\n' ∉ l'.data := by
  intro ls
  induction ls with
  | nil => intro i st _ l' h'; simp [scanFences] at h'
  | cons l0 rest ih =>
    intro i st h l' h'
    rw [scanFences_cons] at h'
    rcases List.mem_cons.mp h' with rfl | h'
    · exact processLine_no_nl i st l0 (h l0 (by simp))
    · exact ih (i + 1) _ (fun x hx => h x (by simp [hx])) l' h'

theorem processLine_stack_sub (i : Nat) (st : ScanSt) (l : String) (f : Frame)
    (hf : f ∈ (processLine i st l).1.stack) :
    f ∈ st.stack ∨
      (f.line = i ∧ (∀ c ∈ f.backticks.data, c = '`') ∧
        (processLine i st l).2 = l ∧ isFenceLine l = true) := by
  by_cases h1 : strContains l "<details>" = true
  · rw [processLine_d1 i st l h1] at hf ⊢; exact Or.inl hf
  rw [Bool.not_eq_true] at h1
  by_cases h2 : strContains l "</details>" = true
  · rw [processLine_d2 i st l h1 h2] at hf ⊢; exact Or.inl hf
  rw [Bool.not_eq_true] at h2
  by_cases h3 : st.inDetails = true
  · rw [processLine_inD i st l h1 h2 h3] at hf ⊢; exact Or.inl hf
  rw [Bool.not_eq_true] at h3
  cases hfm : fenceMatch (pyStrip l) with
  | none =>
    by_cases ht : allTicks (pyStrip l) = true
    · cases hstk : st.stack with
      | nil =>
        rw [processLine_none i st l h1 h2 h3 hfm (Or.inl hstk)] at hf
        have hf2 : f ∈ st.stack := hf
        rw [hstk] at hf2
        exact Or.inl hf2
      | cons g rest =>
        rw [processLine_bare i st l g rest h1 h2 h3 hfm hstk ht] at hf
        have hf2 : f ∈ rest := hf
        exact Or.inl (List.mem_cons_of_mem g hf2)
    · rw [Bool.not_eq_true] at ht
      rw [processLine_none i st l h1 h2 h3 hfm (Or.inr ht)] at hf
      exact Or.inl hf
  | some p =>
    obtain ⟨bt, lang⟩ := p
    by_cases hlang : lang = ""
    · subst hlang
      cases hstk : st.stack with
      | nil =>
        rw [processLine_escape i st l bt h1 h2 h3 hfm hstk] at hf
        have hf2 : f ∈ st.stack := hf
        rw [hstk] at hf2
        exact Or.inl hf2
      | cons g rest =>
        by_cases hcnt : g.count = bt.length
        · rw [processLine_close_eq i st l bt g rest h1 h2 h3 hfm hstk hcnt] at hf
          have hf2 : f ∈ rest := hf
          exact Or.inl (List.mem_cons_of_mem g hf2)
        · rw [processLine_close_ne i st l bt g rest h1 h2 h3 hfm hstk hcnt] at hf
          have hf2 : f ∈ rest := hf
          exact Or.inl (List.mem_cons_of_mem g hf2)
    · rw [processLine_push i st l bt lang h1 h2 h3 hfm hlang] at hf
      have hf2 : f ∈ (⟨bt.length, i, bt, lang⟩ : Frame) :: st.stack := hf
      rcases List.mem_cons.mp hf2 with rfl | hf3
      · refine Or.inr ⟨rfl, (fenceMatch_eq_some _ _ _ hfm).2.1, ?_, ?_⟩
        · rw [processLine_push i st l bt lang h1 h2 h3 hfm hlang]
        · unfold isFenceLine; rw [hfm]; rfl
      · exact Or.inl hf3

theorem scanFences_frames :
    ∀ (ls : List String) (i : Nat) (st : ScanSt) (f : Frame),
      f ∈ (scanFences i st ls).1.stack →
      f ∈ st.stack ∨
        (i ≤ f.line ∧ f.line - i < ls.length ∧ (∀ c ∈ f.backticks.data, c = '`') ∧
          ∃ l, ls[f.line - i]? = some l ∧ (scanFences i st ls).2[f.line - i]? = some l ∧
            isFenceLine l = true) := by
  intro ls
  induction ls with
  | nil => intro i st f hf; exact Or.inl hf
  | cons l0 rest ih =>
    intro i st f hf
    rw [scanFences_cons] at hf
    rcases ih (i + 1) (processLine i st l0).1 f hf with hmem | ⟨hle, hlt, hticks, l, hg1, hg2, hfl⟩
    · rcases processLine_stack_sub i st l0 f hmem with hmem' | ⟨hline, hticks, hkeep, hfl⟩
      · exact Or.inl hmem'
      · refine Or.inr ⟨by omega, by simp [hline], hticks, l0, ?_, ?_, hfl⟩
        · rw [hline, Nat.sub_self, List.getElem?_cons_zero]
        · rw [hline, Nat.sub_self, scanFences_cons, List.getElem?_cons_zero, hkeep]
    · have hle' : i ≤ f.line := by omega
      have hidx : f.line - i = (f.line - (i + 1)) + 1 := by omega
      refine Or.inr ⟨hle', by simp [hidx]; omega, hticks, l, ?_, ?_, hfl⟩
      · rw [hidx, List.getElem?_cons_succ]; exact hg1
      · rw [scanFences_cons, hidx, List.getElem?_cons_succ]; exact hg2

theorem splitNl_ne_nil (l : List Char) : splitNl l ≠ [] := by
  cases l with
  | nil => simp [splitNl]
  | cons c rest =>
    unfold splitNl
    by_cases h : c = '\n'
    · simp [h]
    · simp only [h, if_neg, Bool.false_eq_true]
      cases splitNl rest <;> simp

theorem splitNl_no_nl {l : List Char} (h : '\n' ∉ l) : splitNl l = [l] := by
  induction l with
  | nil => rfl
  | cons c rest ih =>
    have hc : ¬ (c = '\n') := fun hc => h (by simp [hc])
    unfold splitNl
    rw [if_neg hc, ih (fun hm => h (by simp [hm]))]

theorem splitNl_mem_no_nl : ∀ (l : List Char), ∀ x ∈ splitNl l, '\n' ∉ x := by
  intro l
  induction l with
  | nil => intro x hx; simp [splitNl] at hx; simp [hx]
  | cons c rest ih =>
    intro x hx
    unfold splitNl at hx
    by_cases h : c = '\n'
    · rw [if_pos h] at hx
      rcases List.mem_cons.mp hx with rfl | hx
      · simp
      · exact ih x hx
    · rw [if_neg h] at hx
      cases hsp : splitNl rest with
      | nil => exact absurd hsp (splitNl_ne_nil rest)
      | cons h0 t0 =>
        rw [hsp] at hx
        rcases List.mem_cons.mp hx with rfl | hx
        · intro hm
          rcases List.mem_cons.mp hm with hm | hm
          · exact h hm.symm
          · exact ih h0 (by rw [hsp]; exact List.mem_cons_self h0 t0) hm
        · exact ih x (by rw [hsp]; exact List.mem_cons_of_mem h0 hx)

theorem splitNl_append_no_nl :
    ∀ (a x : List Char), (∀ c ∈ a, c ≠ '\n') →
      ∀ hd tl, splitNl x = hd :: tl → splitNl (a ++ x) = (a ++ hd) :: tl := by
  intro a
  induction a with
  | nil => intro x _ hd tl h; simpa using h
  | cons c a' ih =>
    intro x h hd tl hx
    have hc : ¬ (c = '\n') := h c (by simp)
    show splitNl (c :: (a' ++ x)) = _
    unfold splitNl
    rw [if_neg hc, ih x (fun y hy => h y (by simp [hy])) hd tl hx]
    rfl

theorem splitNl_joinNl :
    ∀ (ls : List (List Char)), ls ≠ [] → (∀ l ∈ ls, '\n' ∉ l) →
      splitNl (joinNl ls) = ls := by
  intro ls
  induction ls with
  | nil => intro h; exact absurd rfl h
  | cons l rest ih =>
    intro _ hnl
    cases rest with
    | nil => exact splitNl_no_nl (hnl l (by simp))
    | cons l2 t =>
      show splitNl (l ++ '\n' :: joinNl (l2 :: t)) = _
      have hrec : splitNl (joinNl (l2 :: t)) = l2 :: t :=
        ih (by simp) (fun x hx => hnl x (List.mem_cons_of_mem l hx))
      have hx : splitNl ('\n' :: joinNl (l2 :: t)) = [] :: l2 :: t := by
        unfold splitNl
        rw [if_pos rfl, hrec]
      rw [splitNl_append_no_nl l ('\n' :: joinNl (l2 :: t))
        (fun c hc hne => (hnl l (by simp)) (hne ▸ hc)) [] (l2 :: t) hx]
      simp

theorem strSplitNl_strJoinNl (ls : List String) (hne : ls ≠ [])
    (hnl : ∀ l ∈ ls, '\n' ∉ l.data) : strSplitNl (strJoinNl ls) = ls := by
  unfold strSplitNl strJoinNl
  have h1 : splitNl (joinNl (ls.map String.data)) = ls.map String.data := by
    apply splitNl_joinNl
    · simpa using hne
    · intro l hl
      obtain ⟨s, hs, rfl⟩ := List.mem_map.mp hl
      exact hnl s hs
  show (splitNl (⟨joinNl (ls.map String.data)⟩ : String).data).map String.mk = ls
  rw [show (⟨joinNl (ls.map String.data)⟩ : String).data = joinNl (ls.map String.data) from rfl]
  rw [h1, List.map_map]
  exact List.map_id'' (fun s => rfl) ls

theorem stackOk_init : stackOk initSt := fun f hf => absurd hf (List.not_mem_nil f)

theorem strSplitNl_ne_nil (t : String) : strSplitNl t ≠ [] := by
  unfold strSplitNl
  simp [splitNl_ne_nil]

theorem strSplitNl_no_nl (t : String) : ∀ l ∈ strSplitNl t, '\n' ∉ l.data := by
  intro l hl
  obtain ⟨x, hx, rfl⟩ := List.mem_map.mp hl
  exact splitNl_mem_no_nl t.data x hx

theorem balance_scan_empty (t : String)
    (h : (scanFences 0 initSt (strSplitNl t)).1.stack = []) :
    balance_code_fences t = strJoinNl (scanFences 0 initSt (strSplitNl t)).2 := by
  show strJoinNl
      (List.foldl repairOne (scanFences 0 initSt (strSplitNl t)).2
        (scanFences 0 initSt (strSplitNl t)).1.stack.reverse) = _
  rw [h]
  rfl

theorem scan_out_ne_nil (t : String) : (scanFences 0 initSt (strSplitNl t)).2 ≠ [] := by
  intro hnil
  have hlen := scanFences_length (strSplitNl t) 0 initSt
  rw [hnil] at hlen
  exact strSplitNl_ne_nil t (List.length_eq_zero.mp hlen.symm)

/-- C2 (amended): `balance_code_fences` is idempotent on every input whose
scan ends with an empty fence stack, i.e. whenever no unmatched opening fence
survives to the repair phase. -/
theorem claim_C2 (t : String)
    (h : (scanFences 0 initSt (strSplitNl t)).1.stack = []) :
    balance_code_fences (balance_code_fences t) = balance_code_fences t := by
  have hb := balance_scan_empty t h
  have hnn : ∀ l ∈ (scanFences 0 initSt (strSplitNl t)).2, '\n' ∉ l.data :=
    scanFences_no_nl _ 0 initSt (strSplitNl_no_nl t)
  have hsplit : strSplitNl (balance_code_fences t) =
      (scanFences 0 initSt (strSplitNl t)).2 := by
    rw [hb]
    exact strSplitNl_strJoinNl _ (scan_out_ne_nil t) hnn
  conv_lhs => rw [show balance_code_fences (balance_code_fences t) =
    strJoinNl
      ((scanFences 0 initSt (strSplitNl (balance_code_fences t))).1.stack.reverse.foldl
        repairOne
        (scanFences 0 initSt (strSplitNl (balance_code_fences t))).2) from rfl]
  rw [hsplit, scanFences_idem _ 0 initSt stackOk_init, h]
  simp only [List.reverse_nil, List.foldl_nil]
  exact hb.symm

/-- C2 witness: a balanced document satisfies the empty-final-stack condition
and is a fixpoint of re-balancing. -/
theorem claim_C2_witness :
    (scanFences 0 initSt (strSplitNl "a\n```py\nx\n```")).1.stack = [] ∧
    balance_code_fences (balance_code_fences "a\n```py\nx\n```") =
      balance_code_fences "a\n```py\nx\n```" :=
  ⟨by decide, claim_C2 "a\n```py\nx\n```" (by decide)⟩

/-- C2 counterexample: on `"````a\n---\n```b\nx"` the repair phase's stale
line indices make a second run of the balancer produce different text, so the
claim "re-running the Fence Balancer is idempotent for all documents" is
false. -/
theorem claim_C2_cx :
    balance_code_fences (balance_code_fences "````a\n---\n```b\nx") ≠
      balance_code_fences "````a\n---\n```b\nx" := by decide

/-! ## Claim C3: what pops a frame -/

/-- A line that the balancer treats as a closing fence when a frame is open:
no details tag, and either a 3+-backtick fence with empty language or a line
of only backticks. -/
def isClosingLine (l : String) : Bool :=
  !strContains l "<details>" && !strContains l "</details>" &&
    (match fenceMatch (pyStrip l) with
     | some (_, lang) => lang == ""
     | none => allTicks (pyStrip l))

/-- The backtick count of a closing line (the initial backtick run of its
stripped form). -/
def closingTicks (l : String) : Nat := ((pyStrip l).data.takeWhile (· = '`')).length

theorem takeWhile_all {p : Char → Bool} :
    ∀ {l : List Char}, (∀ c ∈ l, p c = true) → l.takeWhile p = l := by
  intro l
  induction l with
  | nil => intro _; rfl
  | cons c rest ih =>
    intro h
    rw [List.takeWhile_cons, h c (by simp), ih (fun x hx => h x (by simp [hx]))]
    simp

theorem fenceMatch_none_allTicks_short (s : String) (hfm : fenceMatch s = none)
    (ht : allTicks s = true) : s.data.length < 3 := by
  by_contra hge
  rw [Nat.not_lt] at hge
  unfold allTicks at ht
  rw [Bool.and_eq_true] at ht
  obtain ⟨_, hall⟩ := ht
  rw [List.all_eq_true] at hall
  have hrep : s.data = List.replicate s.data.length '`' :=
    List.eq_replicate_of_mem (fun b hb => by simpa using hall b hb)
  have hs : s = tickStr s.data.length := by
    cases s with
    | mk d => exact congrArg String.mk hrep
  rw [hs, fenceMatch_tickStr _ hge] at hfm
  cases hfm

/-- C3 (amended): when the scanner is outside `<details>`, the stack is
nonempty with a well-formed top frame, and the current line is a closing line
of any backtick count, the step pops exactly the top frame, keeps the line
when the counts agree and otherwise rewrites the closing line to exactly the
frame's backtick count; the opening line is never touched (a step only ever
emits a replacement for the current line). -/
theorem claim_C3 (i : Nat) (st : ScanSt) (l : String) (f : Frame) (rest : List Frame)
    (hin : st.inDetails = false) (hstk : st.stack = f :: rest) (hcnt3 : 3 ≤ f.count)
    (hcl : isClosingLine l = true) :
    processLine i st l =
      ({ stack := rest, inDetails := false },
        if closingTicks l = f.count then l else tickStr f.count) := by
  unfold isClosingLine at hcl
  rw [Bool.and_eq_true, Bool.and_eq_true] at hcl
  obtain ⟨⟨ha, hb⟩, hc⟩ := hcl
  rw [Bool.not_eq_true'] at ha hb
  cases hfm : fenceMatch (pyStrip l) with
  | some p =>
    obtain ⟨bt, lang⟩ := p
    rw [hfm] at hc
    have hlang : lang = "" := by simpa using hc
    subst hlang
    obtain ⟨hsd, hticks, hlen⟩ := fenceMatch_pyStrip_lang_empty l bt hfm
    have hct : closingTicks l = bt.data.length := by
      unfold closingTicks
      rw [hsd, takeWhile_all (fun c hcm => by simp [hticks c hcm])]
    by_cases hq : f.count = bt.length
    · rw [processLine_close_eq i st l bt f rest ha hb hin hfm hstk hq]
      rw [str_length_data] at hq
      rw [if_pos (by omega)]
      rw [show ({ st with stack := rest } : ScanSt) = ⟨rest, st.inDetails⟩ from rfl, hin]
    · rw [processLine_close_ne i st l bt f rest ha hb hin hfm hstk hq]
      rw [str_length_data] at hq
      rw [if_neg (by omega)]
      rw [show ({ st with stack := rest } : ScanSt) = ⟨rest, st.inDetails⟩ from rfl, hin]
  | none =>
    rw [hfm] at hc
    rw [processLine_bare i st l f rest ha hb hin hfm hstk hc]
    have hshort := fenceMatch_none_allTicks_short (pyStrip l) hfm hc
    have hct : closingTicks l ≤ (pyStrip l).data.length := by
      unfold closingTicks
      exact (List.takeWhile_sublist _).length_le
    rw [if_neg (by omega)]
    rw [show ({ st with stack := rest } : ScanSt) = ⟨rest, st.inDetails⟩ from rfl, hin]

/-- C3 witness: a matching-count closing line pops the frame cleanly and is
kept verbatim. -/
theorem claim_C3_witness :
    isClosingLine "````" = true ∧
    processLine 1 ⟨[⟨4, 0, "````", "py"⟩], false⟩ "````" = (⟨[], false⟩, "````") :=
  ⟨by decide, by
    rw [claim_C3 1 ⟨[⟨4, 0, "````", "py"⟩], false⟩ "````" ⟨4, 0, "````", "py"⟩ []
      rfl rfl (by decide) (by decide)]
    decide⟩

/-- C3 counterexample: a closing line of 3 backticks pops a frame of count 5
(and is rewritten to 5 backticks), refuting "popped only by a
same-or-greater-backtick-count closing line". -/
theorem claim_C3_cx :
    (processLine 1 ⟨[⟨5, 0, "`````", "py"⟩], false⟩ "```").1.stack = [] ∧
    closingTicks "```" = 3 ∧ (3 : Nat) < 5 ∧
    (processLine 1 ⟨[⟨5, 0, "`````", "py"⟩], false⟩ "```").2 = "`````" := by decide

/-! ## Claim C10: the frame effect of the balancer -/

theorem repairOne_small_get (ls : List String) (f : Frame) (j : Nat)
    (hcnt : f.count < 4) (hne : f.line ≠ j) : (repairOne ls f)[j]? = ls[j]? := by
  unfold repairOne
  rw [if_neg (by omega)]
  exact List.getElem?_set_ne hne

theorem repairOne_small_length (ls : List String) (f : Frame) (hcnt : f.count < 4) :
    (repairOne ls f).length = ls.length := by
  unfold repairOne
  rw [if_neg (by omega)]
  simp

theorem repair_fold_get :
    ∀ (frames : List Frame) (ls : List String) (j : Nat),
      (∀ f ∈ frames, f.count < 4 ∧ f.line ≠ j) →
      (frames.foldl repairOne ls)[j]? = ls[j]? := by
  intro frames
  induction frames with
  | nil => intro ls j _; rfl
  | cons f rest ih =>
    intro ls j h
    rw [List.foldl_cons, ih _ j (fun g hg => h g (by simp [hg]))]
    exact repairOne_small_get ls f j (h f (by simp)).1 (h f (by simp)).2

theorem repair_fold_length :
    ∀ (frames : List Frame) (ls : List String),
      (∀ f ∈ frames, f.count < 4) →
      (frames.foldl repairOne ls).length = ls.length := by
  intro frames
  induction frames with
  | nil => intro ls _; rfl
  | cons f rest ih =>
    intro ls h
    rw [List.foldl_cons, ih _ (fun g hg => h g (by simp [hg]))]
    exact repairOne_small_length ls f (h f (by simp))

theorem strReplaceFirst_no_nl (s old new : String) (hs : '\n' ∉ s.data)
    (hn : '\n' ∉ new.data) : '\n' ∉ (strReplaceFirst s old new).data := by
  intro hm
  rcases mem_replaceFirst (show '\n' ∈ replaceFirst s.data old.data new.data from hm) with
    hm | hm
  · exact hs hm
  · exact hn hm

theorem repairOne_small_no_nl (ls : List String) (f : Frame) (hcnt : f.count < 4)
    (hticks : ∀ c ∈ f.backticks.data, c = '`')
    (h : ∀ l ∈ ls, '\n' ∉ l.data) : ∀ l ∈ repairOne ls f, '\n' ∉ l.data := by
  unfold repairOne
  rw [if_neg (by omega)]
  intro l hl
  rcases List.mem_or_eq_of_mem_set hl with hl | rfl
  · exact h l hl
  · apply strReplaceFirst_no_nl
    · cases hx : ls[f.line]? with
      | none => rw [List.getD_eq_getElem?_getD, hx]; simp
      | some y =>
        rw [List.getD_eq_getElem?_getD, hx]
        exact h y (List.getElem?_mem hx)
    · rw [String.data_append]
      intro hm
      rcases List.mem_append.mp hm with hm | hm
      · simp only [show ("\\" : String).data = ['\\'] from rfl, List.mem_singleton] at hm
        exact absurd hm (by decide)
      · exact absurd (hticks _ hm) (by decide)

theorem repair_fold_no_nl :
    ∀ (frames : List Frame) (ls : List String),
      (∀ f ∈ frames, f.count < 4 ∧ ∀ c ∈ f.backticks.data, c = '`') →
      (∀ l ∈ ls, '\n' ∉ l.data) →
      ∀ l ∈ frames.foldl repairOne ls, '\n' ∉ l.data := by
  intro frames
  induction frames with
  | nil => intro ls _ h l hl; exact h l hl
  | cons f rest ih =>
    intro ls h hls
    rw [List.foldl_cons]
    exact ih _ (fun g hg => h g (by simp [hg]))
      (repairOne_small_no_nl ls f (h f (by simp)).1 (h f (by simp)).2 hls)

/-- C10 (amended): provided no unmatched opening fence of 4 or more backticks
survives the scan, every input line whose stripped form is neither a fence
line nor a backtick-only line is emitted by `balance_code_fences` unchanged at
its original position (in particular in its original relative order), and the
output has exactly as many lines as the input. -/
theorem claim_C10 (t : String)
    (hrep : ∀ f ∈ (scanFences 0 initSt (strSplitNl t)).1.stack, f.count < 4) :
    (strSplitNl (balance_code_fences t)).length = (strSplitNl t).length ∧
    ∀ (j : Nat) (l : String), (strSplitNl t)[j]? = some l →
      isFenceLine l = false → isTickLine l = false →
      (strSplitNl (balance_code_fences t))[j]? = some l := by
  have hframes : ∀ f ∈ (scanFences 0 initSt (strSplitNl t)).1.stack,
      (∀ c ∈ f.backticks.data, c = '`') ∧
        ∃ lf, (strSplitNl t)[f.line]? = some lf ∧
          (scanFences 0 initSt (strSplitNl t)).2[f.line]? = some lf ∧
          isFenceLine lf = true := by
    intro f hf
    rcases scanFences_frames (strSplitNl t) 0 initSt f hf with hmem |
      ⟨_, _, hticks, lf, hg1, hg2, hfl⟩
    · exact absurd hmem (List.not_mem_nil f)
    · exact ⟨hticks, lf, by simpa using hg1, by simpa using hg2, hfl⟩
  have hnn : ∀ l ∈ (scanFences 0 initSt (strSplitNl t)).2, '\n' ∉ l.data :=
    scanFences_no_nl _ 0 initSt (strSplitNl_no_nl t)
  have hrep' : ∀ f ∈ (scanFences 0 initSt (strSplitNl t)).1.stack.reverse,
      f.count < 4 ∧ ∀ c ∈ f.backticks.data, c = '`' := by
    intro f hf
    rw [List.mem_reverse] at hf
    exact ⟨hrep f hf, (hframes f hf).1⟩
  have hfoldlen : ((scanFences 0 initSt (strSplitNl t)).1.stack.reverse.foldl repairOne
      (scanFences 0 initSt (strSplitNl t)).2).length = (strSplitNl t).length := by
    rw [repair_fold_length _ _ (fun f hf => (hrep' f hf).1), scanFences_length]
  have hsplit : strSplitNl (balance_code_fences t) =
      (scanFences 0 initSt (strSplitNl t)).1.stack.reverse.foldl repairOne
        (scanFences 0 initSt (strSplitNl t)).2 := by
    show strSplitNl (strJoinNl _) = _
    apply strSplitNl_strJoinNl
    · intro hnil
      rw [hnil] at hfoldlen
      exact strSplitNl_ne_nil t (List.length_eq_zero.mp hfoldlen.symm)
    · exact repair_fold_no_nl _ _ hrep' hnn
  constructor
  · rw [hsplit]; exact hfoldlen
  · intro j l hj hf ht
    rw [hsplit]
    have hcond : ∀ f ∈ (scanFences 0 initSt (strSplitNl t)).1.stack.reverse,
        f.count < 4 ∧ f.line ≠ j := by
      intro f hfm
      rw [List.mem_reverse] at hfm
      obtain ⟨_, lf, hg1, _, hfl⟩ := hframes f hfm
      refine ⟨hrep f hfm, ?_⟩
      intro heq
      rw [heq, hj] at hg1
      injection hg1 with hg1
      rw [← hg1] at hfl
      rw [hfl] at hf
      cases hf
    rw [repair_fold_get _ _ j hcond]
    exact scanFences_get_keep (strSplitNl t) 0 initSt j l hj hf ht

/-- C10 witness: a document with one balanced fence and a plain prose line:
the prose line survives unchanged at its position. -/
theorem claim_C10_witness :
    (∀ f ∈ (scanFences 0 initSt (strSplitNl "hello\n```py\nx\n```")).1.stack, f.count < 4) ∧
    (strSplitNl (balance_code_fences "hello\n```py\nx\n```"))[0]? = some "hello" :=
  ⟨by decide, by
    have h := (claim_C10 "hello\n```py\nx\n```" (by decide)).2 0 "hello"
      (by decide) (by decide) (by decide)
    exact h⟩

/-- C10 counterexample: with an unmatched 4-backtick opener, the repair
phase's stale index rewrites the plain prose line `"see ``` mid"` (neither a
fence line nor backtick-only, outside any details block), so it is not
emitted unchanged: it does not occur in the output at all. -/
theorem claim_C10_cx :
    isFenceLine "see ``` mid" = false ∧ isTickLine "see ``` mid" = false ∧
    strContains "````a\n---\nsee ``` mid\n```b" "<details>" = false ∧
    "see ``` mid" ∈ strSplitNl "````a\n---\nsee ``` mid\n```b" ∧
    "see ``` mid" ∉ strSplitNl (balance_code_fences "````a\n---\nsee ``` mid\n```b") := by
  decide

/-! ## A model of Python JSON-like dynamic values

Values flowing through the tool formatters come from `json.load`, so they are
JSON trees: `None`, booleans, integers (floats do not occur in these
records), strings, lists and string-keyed dicts.  Operations that Python
would raise on return `Except String`. -/

inductive Json where
  | null
  | bool (b : Bool)
  | num (n : Int)
  | str (s : String)
  | arr (xs : List Json)
  | obj (fs : List (String × Json))

/-- First binding of key `k` (Python dict lookup; duplicate keys do not occur
in decoded JSON). -/
def getField : List (String × Json) → String → Option Json
  | [], _ => none
  | (k', v) :: rest, k => if k' = k then some v else getField rest k

/-- Python truthiness of a JSON value. -/
def jsonTruthy : Json → Bool
  | .null => false
  | .bool b => b
  | .num n => n ≠ 0
  | .str s => s ≠ ""
  | .arr xs => !xs.isEmpty
  | .obj fs => !fs.isEmpty

/-- Numeric view used by Python comparison/arithmetic (`True == 1`). -/
def toNumQ : Json → Option Int
  | .num n => some n
  | .bool b => some (if b then 1 else 0)
  | _ => none

mutual
/-- Python `==` on JSON values: numeric cross-type equality for bools and
ints, structural equality for containers (dicts compared key-wise), `False`
across unrelated types, never raising. -/
def pyEq : Json → Json → Bool
  | a, b =>
    match toNumQ a, toNumQ b with
    | some x, some y => x = y
    | _, _ =>
      match a, b with
      | .null, .null => true
      | .str s, .str t => s = t
      | .arr xs, .arr ys => pyEqList xs ys
      | .obj fs, .obj gs => fs.length = gs.length && pyEqFields fs gs
      | _, _ => false
def pyEqList : List Json → List Json → Bool
  | [], [] => true
  | x :: xs, y :: ys => pyEq x y && pyEqList xs ys
  | _, _ => false
def pyEqFields : List (String × Json) → List (String × Json) → Bool
  | [], _ => true
  | (k, v) :: fs, gs =>
    (match getField gs k with
     | some w => pyEq v w
     | none => false) && pyEqFields fs gs
end

/-- Python `int.__str__` (used through `str()` and f-strings). -/
def intStr (n : Int) : String := toString n

mutual
/-- Python `str()` of a JSON value (f-string interpolation). -/
def pyStr : Json → String
  | .null => "None"
  | .bool b => if b then "True" else "False"
  | .num n => intStr n
  | .str s => s
  | .arr xs => "[" ++ pyReprList xs ++ "]"
  | .obj fs => ⟨'{' :: (pyReprFields fs).data ++ ['}']⟩
/-- Python `repr()` of a JSON value (inside container `str()`); string
escaping inside `repr` is not modelled (no such value is ever printed in
the claims). -/
def pyRepr : Json → String
  | .null => "None"
  | .bool b => if b then "True" else "False"
  | .num n => intStr n
  | .str s => "'" ++ s ++ "'"
  | .arr xs => "[" ++ pyReprList xs ++ "]"
  | .obj fs => ⟨'{' :: (pyReprFields fs).data ++ ['}']⟩
def pyReprList : List Json → String
  | [] => ""
  | [x] => pyRepr x
  | x :: xs => pyRepr x ++ ", " ++ pyReprList xs
def pyReprFields : List (String × Json) → String
  | [] => ""
  | [(k, v)] => "'" ++ k ++ "': " ++ pyRepr v
  | (k, v) :: fs => "'" ++ k ++ "': " ++ pyRepr v ++ ", " ++ pyReprFields fs
end

/-- The JSON string escaping of `json.dumps` restricted to the escapes that
occur in this code base (`"`, `\`, newline, tab, carriage return). -/
def jsonEscape (s : String) : String :=
  ⟨s.data.flatMap fun c =>
    if c = '"' then ['\\', '"']
    else if c = '\\' then ['\\', '\\']
    else if c = '\n' then ['\\', 'n']
    else if c = '\t' then ['\\', 't']
    else if c = '\r' then ['\\', 'r']
    else [c]⟩

mutual
/-- `json.dumps` with default separators. -/
def dumpsJ : Json → String
  | .null => "null"
  | .bool b => if b then "true" else "false"
  | .num n => intStr n
  | .str s => "\"" ++ jsonEscape s ++ "\""
  | .arr xs => "[" ++ dumpsList xs ++ "]"
  | .obj fs => ⟨'{' :: (dumpsFields fs).data ++ ['}']⟩
def dumpsList : List Json → String
  | [] => ""
  | [x] => dumpsJ x
  | x :: xs => dumpsJ x ++ ", " ++ dumpsList xs
def dumpsFields : List (String × Json) → String
  | [] => ""
  | [(k, v)] => "\"" ++ jsonEscape k ++ "\": " ++ dumpsJ v
  | (k, v) :: fs => "\"" ++ jsonEscape k ++ "\": " ++ dumpsJ v ++ ", " ++ dumpsFields fs
end

/-- Indentation prefix used by `json.dumps(..., indent=2)`. -/
def jsonPad (lvl : Nat) : String := ⟨List.replicate (2 * lvl) ' '⟩

mutual
/-- `json.dumps(obj, indent=2)`. -/
def dumpsInd : Nat → Json → String
  | _, .null => "null"
  | _, .bool b => if b then "true" else "false"
  | _, .num n => intStr n
  | _, .str s => "\"" ++ jsonEscape s ++ "\""
  | _, .arr [] => "[]"
  | lvl, .arr (x :: xs) =>
    "[\n" ++ dumpsIndList (lvl + 1) (x :: xs) ++ "\n" ++ jsonPad lvl ++ "]"
  | _, .obj [] => ⟨['{', '}']⟩
  | lvl, .obj (f :: fs) =>
    ⟨'{' :: ("\n" ++ dumpsIndFields (lvl + 1) (f :: fs) ++ "\n" ++ jsonPad lvl).data
      ++ ['}']⟩
def dumpsIndList : Nat → List Json → String
  | _, [] => ""
  | lvl, [x] => jsonPad lvl ++ dumpsInd lvl x
  | lvl, x :: xs => jsonPad lvl ++ dumpsInd lvl x ++ ",\n" ++ dumpsIndList lvl xs
def dumpsIndFields : Nat → List (String × Json) → String
  | _, [] => ""
  | lvl, [(k, v)] => jsonPad lvl ++ "\"" ++ jsonEscape k ++ "\": " ++ dumpsInd lvl v
  | lvl, (k, v) :: fs =>
    jsonPad lvl ++ "\"" ++ jsonEscape k ++ "\": " ++ dumpsInd lvl v ++ ",\n" ++
      dumpsIndFields lvl fs
end

/-! ### `json.loads` (recursive-descent parser over the char list, fuelled)

JSON floats are not modelled (none occur in these records): a fractional or
exponent part makes the parse fail where Python would succeed. -/

/-- JSON whitespace. -/
def jsonWs (c : Char) : Bool := c = ' ' || c = '\t' || c = '\n' || c = '\r'

def skipWs (l : List Char) : List Char := l.dropWhile jsonWs

/-- Parse a JSON string body after the opening quote, returning the content
and the rest after the closing quote. -/
def parseStrBody : Nat → List Char → Except String (List Char × List Char)
  | 0, _ => .error "ValueError: fuel"
  | _ + 1, [] => .error "ValueError: unterminated string"
  | fuel + 1, c :: rest =>
    if c = '"' then .ok ([], rest)
    else if c = '\\' then
      match rest with
      | [] => .error "ValueError: bad escape"
      | e :: rest2 =>
        let dec : Except String Char :=
          if e = '"' then .ok '"'
          else if e = '\\' then .ok '\\'
          else if e = '/' then .ok '/'
          else if e = 'n' then .ok '\n'
          else if e = 't' then .ok '\t'
          else if e = 'r' then .ok '\r'
          else if e = 'b' then .ok '\x08'
          else if e = 'f' then .ok '\x0c'
          else .error "ValueError: unsupported escape"
        match dec with
        | .error m => .error m
        | .ok ch =>
          match parseStrBody fuel rest2 with
          | .error m => .error m
          | .ok (s, r) => .ok (ch :: s, r)
    else
      match parseStrBody fuel rest with
      | .error m => .error m
      | .ok (s, r) => .ok (c :: s, r)

/-- Parse an integer literal (optional minus, digits). -/
def parseIntLit (l : List Char) : Except String (Int × List Char) :=
  let (neg, l1) := match l with
    | '-' :: r => (true, r)
    | _ => (false, l)
  let digits := l1.takeWhile Char.isDigit
  if digits.isEmpty then .error "ValueError: expecting value"
  else
    let v : Nat := digits.foldl (fun acc c => acc * 10 + (c.toNat - 48)) 0
    .ok (if neg then -(v : Int) else (v : Int), l1.drop digits.length)

mutual
/-- Parse one JSON value. -/
def parseVal : Nat → List Char → Except String (Json × List Char)
  | 0, _ => .error "ValueError: fuel"
  | fuel + 1, l =>
    match skipWs l with
    | [] => .error "ValueError: expecting value"
    | c :: rest =>
      if c = 'n' then
        if ['u', 'l', 'l'].isPrefixOf rest then .ok (.null, rest.drop 3)
        else .error "ValueError: expecting value"
      else if c = 't' then
        if ['r', 'u', 'e'].isPrefixOf rest then .ok (.bool true, rest.drop 3)
        else .error "ValueError: expecting value"
      else if c = 'f' then
        if ['a', 'l', 's', 'e'].isPrefixOf rest then .ok (.bool false, rest.drop 4)
        else .error "ValueError: expecting value"
      else if c = '"' then
        match parseStrBody fuel rest with
        | .error m => .error m
        | .ok (s, r) => .ok (.str ⟨s⟩, r)
      else if c = '[' then
        match skipWs rest with
        | ']' :: r2 => .ok (.arr [], r2)
        | _ =>
          match parseElems fuel rest with
          | .error m => .error m
          | .ok (xs, r) => .ok (.arr xs, r)
      else if c = '{' then
        match skipWs rest with
        | '}' :: r2 => .ok (.obj [], r2)
        | _ =>
          match parseMembers fuel rest with
          | .error m => .error m
          | .ok (fs, r) => .ok (.obj fs, r)
      else
        match parseIntLit (c :: rest) with
        | .error m => .error m
        | .ok (n, r) => .ok (.num n, r)
/-- Parse comma-separated array elements up to `]`. -/
def parseElems : Nat → List Char → Except String (List Json × List Char)
  | 0, _ => .error "ValueError: fuel"
  | fuel + 1, l =>
    match parseVal fuel l with
    | .error m => .error m
    | .ok (v, r) =>
      match skipWs r with
      | ']' :: r2 => .ok ([v], r2)
      | ',' :: r2 =>
        match parseElems fuel r2 with
        | .error m => .error m
        | .ok (vs, r3) => .ok (v :: vs, r3)
      | _ => .error "ValueError: expecting , or ]"
/-- Parse comma-separated object members up to a closing brace. -/
def parseMembers : Nat → List Char → Except String (List (String × Json) × List Char)
  | 0, _ => .error "ValueError: fuel"
  | fuel + 1, l =>
    match skipWs l with
    | '"' :: r =>
      match parseStrBody fuel r with
      | .error m => .error m
      | .ok (k, r2) =>
        match skipWs r2 with
        | ':' :: r3 =>
          match parseVal fuel r3 with
          | .error m => .error m
          | .ok (v, r4) =>
            match skipWs r4 with
            | '}' :: r5 => .ok ([(⟨k⟩, v)], r5)
            | ',' :: r5 =>
              match parseMembers fuel r5 with
              | .error m => .error m
              | .ok (fs, r6) => .ok ((⟨k⟩, v) :: fs, r6)
            | _ => .error "ValueError: expecting , or closing brace"
        | _ => .error "ValueError: expecting :"
    | _ => .error "ValueError: expecting property name"
end

/-- `json.loads`: parse a complete document (trailing whitespace allowed). -/
def json_loads (s : String) : Except String Json :=
  match parseVal (s.data.length + 1) s.data with
  | .error m => .error m
  | .ok (v, r) =>
    if (skipWs r).isEmpty then .ok v else .error "ValueError: extra data"

/-! ## The Part Extractor: `extract_text_from_response_part`
(text_processing.py:14-77) -/

/-- `os.path.basename` for POSIX paths: everything after the last slash. -/
def basename (s : String) : String := ⟨(s.data.reverse.takeWhile (· ≠ '/')).reverse⟩

/-- `d.get(k, dflt)`: raises `AttributeError` when `d` is not a dict. -/
def jGetD (d : Json) (k : String) (dflt : Json) : Except String Json :=
  match d with
  | .obj fs => .ok ((getField fs k).getD dflt)
  | _ => .error "AttributeError: get"

/-- Lines 73-77: the tail shared by non-dict parts and dicts that fell
through every earlier return. -/
def extractTail (part : Json) : Except String Json :=
  if (match part with
      | .str s => strContains s "\x7b" && (strContains s "$mid" || strContains s "kind")
      | _ => false) then .ok (.str "")
  else if jsonTruthy part then .ok (.str (pyStr part)) else .ok (.str "")

/-- Lines 53-71: the id/metadata filter, the `value` field, the `content`
field, then the shared tail. -/
def extractValueContent (fs : List (String × Json)) (part : Json) : Except String Json :=
  if ((getField fs "id").isSome && ((getField fs "kind").isSome || (getField fs "$mid").isSome))
      || (getField fs "$mid").isSome then .ok (.str "")
  else
    match getField fs "value" with
    | some value =>
      if (match value with
          | .str s => strContains s "\x7b" && strContains s "$mid"
          | _ => false) then .ok (.str "")
      else if (match value with
          | .str s => pyStrip s == "```"
          | _ => false) then .ok (.str "")
      else .ok value
    | none =>
      match getField fs "content" with
      | some (.str s) => .ok (.str s)
      | some (.obj cs) =>
        match getField cs "value" with
        | some v => .ok v
        | none => extractTail part
      | some _ => extractTail part
      | none => extractTail part

/-- `part[k]['value']` when `part[k]` is a dict holding `'value'`. -/
def msgValue (fs : List (String × Json)) (k : String) : Option Json :=
  match getField fs k with
  | some (.obj cs) => getField cs "value"
  | _ => none

/-- Lines 46-51: the emphasis-wrapped progress message chain, then lines
53-71. -/
def extractEmphasis (fs : List (String × Json)) (part : Json) : Except String Json :=
  match msgValue fs "content" with
  | some v => .ok (.str ("*" ++ pyStr v ++ "*"))
  | none =>
    match msgValue fs "invocationMessage" with
    | some v => .ok (.str ("*" ++ pyStr v ++ "*"))
    | none =>
      match msgValue fs "pastTenseMessage" with
      | some v => .ok (.str ("*" ++ pyStr v ++ "*"))
      | none => extractValueContent fs part

/-- `extract_text_from_response_part` (text_processing.py:14-77), returning
the Python value produced (a raw `value` field is returned verbatim) and
modelling a raised exception as `Except.error`. -/
def extract_text_from_response_part (part : Json) : Except String Json :=
  match part with
  | .obj fs =>
    (match getField fs "kind" with
     | some kind =>
       if pyEq kind (.str "textEditGroup") then
         .ok (.str ("__TEXT_EDIT_GROUP__" ++ dumpsJ part ++ "__TEXT_EDIT_GROUP__"))
       else if pyEq kind (.str "inlineReference") then
         (match (getField fs "inlineReference").getD (.obj []) with
          | .obj gs =>
            (match getField gs "name" with
             | some name => .ok (.str ("`" ++ pyStr name ++ "`"))
             | none =>
               match getField gs "path" with
               | some (.str p) => .ok (.str ("`" ++ basename p ++ "`"))
               | some _ => .error "TypeError: expected str, bytes or os.PathLike object"
               | none => .ok (.str ""))
          | _ => .ok (.str ""))
       else if pyEq kind (.str "undoStop") || pyEq kind (.str "codeblockUri") then
         .ok (.str "")
       else if pyEq kind (.str "toolInvocationSerialized") then
         .ok (.str ("__TOOL_INVOCATION__" ++ dumpsJ part ++ "__TOOL_INVOCATION__"))
       else if pyEq kind (.str "progressTaskSerialized") then
         .ok (.str ("__PROGRESS_TASK__" ++ dumpsJ part ++ "__PROGRESS_TASK__"))
       else if pyEq kind (.str "prepareToolInvocation") then .ok (.str "")
       else extractEmphasis fs part
     | none => extractValueContent fs part)
  | _ => extractTail part

/-- The one raising configuration: an `inlineReference` record without a
`name` whose `path` is a non-string (then `os.path.basename` raises
`TypeError`). -/
def badInlineRefPath (p : Json) : Bool :=
  match p with
  | .obj fs =>
    (match getField fs "kind" with
     | some kind =>
       pyEq kind (.str "inlineReference") &&
         (match (getField fs "inlineReference").getD (.obj []) with
          | .obj gs =>
            (getField gs "name").isNone &&
              (match getField gs "path" with
               | some (.str _) => false
               | some _ => true
               | none => false)
          | _ => false)
     | none => false)
  | _ => false

theorem extractTail_ok (p : Json) : ∃ v, extractTail p = .ok v := by
  unfold extractTail
  split
  · exact ⟨_, rfl⟩
  · split
    · exact ⟨_, rfl⟩
    · exact ⟨_, rfl⟩

theorem extractValueContent_ok (fs : List (String × Json)) (p : Json) :
    ∃ v, extractValueContent fs p = .ok v := by
  unfold extractValueContent
  split
  · exact ⟨_, rfl⟩
  · split
    · split
      · exact ⟨_, rfl⟩
      · split
        · exact ⟨_, rfl⟩
        · exact ⟨_, rfl⟩
    · split
      · exact ⟨_, rfl⟩
      · split
        · exact ⟨_, rfl⟩
        · exact extractTail_ok p
      · exact extractTail_ok p
      · exact extractTail_ok p

theorem extractEmphasis_ok (fs : List (String × Json)) (p : Json) :
    ∃ v, extractEmphasis fs p = .ok v := by
  unfold extractEmphasis
  split
  · exact ⟨_, rfl⟩
  · split
    · exact ⟨_, rfl⟩
    · split
      · exact ⟨_, rfl⟩
      · exact extractValueContent_ok fs p

/-- C7 (amended): for every JSON-like response-part record that is not an
inlineReference carrying a nameless non-string path, the Part Extractor
returns a value without raising (and that value is the extracted text or the
empty string; a raw `value` field is passed through verbatim).  The excluded
configuration makes `os.path.basename` raise `TypeError`, refuting the
original "never raises" claim. -/
theorem claim_C7 (p : Json) (h : badInlineRefPath p = false) :
    ∃ v, extract_text_from_response_part p = .ok v := by
  cases p with
  | obj fs =>
    show ∃ v,
      (match getField fs "kind" with
       | some kind =>
         if pyEq kind (.str "textEditGroup") = true then
           Except.ok (Json.str
             ("__TEXT_EDIT_GROUP__" ++ dumpsJ (.obj fs) ++ "__TEXT_EDIT_GROUP__"))
         else if pyEq kind (.str "inlineReference") = true then
           (match (getField fs "inlineReference").getD (.obj []) with
            | .obj gs =>
              (match getField gs "name" with
               | some name => Except.ok (Json.str ("`" ++ pyStr name ++ "`"))
               | none =>
                 match getField gs "path" with
                 | some (.str p) => Except.ok (Json.str ("`" ++ basename p ++ "`"))
                 | some _ =>
                   Except.error "TypeError: expected str, bytes or os.PathLike object"
                 | none => Except.ok (Json.str ""))
            | _ => Except.ok (Json.str ""))
         else if (pyEq kind (.str "undoStop") || pyEq kind (.str "codeblockUri")) = true then
           Except.ok (Json.str "")
         else if pyEq kind (.str "toolInvocationSerialized") = true then
           Except.ok (Json.str
             ("__TOOL_INVOCATION__" ++ dumpsJ (.obj fs) ++ "__TOOL_INVOCATION__"))
         else if pyEq kind (.str "progressTaskSerialized") = true then
           Except.ok (Json.str ("__PROGRESS_TASK__" ++ dumpsJ (.obj fs) ++ "__PROGRESS_TASK__"))
         else if pyEq kind (.str "prepareToolInvocation") = true then Except.ok (Json.str "")
         else extractEmphasis fs (.obj fs)
       | none => extractValueContent fs (.obj fs)) = .ok v
    cases hk : getField fs "kind" with
    | none => exact extractValueContent_ok fs (.obj fs)
    | some kind =>
      show ∃ v,
        (if pyEq kind (.str "textEditGroup") = true then
           Except.ok (Json.str
             ("__TEXT_EDIT_GROUP__" ++ dumpsJ (.obj fs) ++ "__TEXT_EDIT_GROUP__"))
         else if pyEq kind (.str "inlineReference") = true then
           (match (getField fs "inlineReference").getD (.obj []) with
            | .obj gs =>
              (match getField gs "name" with
               | some name => Except.ok (Json.str ("`" ++ pyStr name ++ "`"))
               | none =>
                 match getField gs "path" with
                 | some (.str p) => Except.ok (Json.str ("`" ++ basename p ++ "`"))
                 | some _ =>
                   Except.error "TypeError: expected str, bytes or os.PathLike object"
                 | none => Except.ok (Json.str ""))
            | _ => Except.ok (Json.str ""))
         else if (pyEq kind (.str "undoStop") || pyEq kind (.str "codeblockUri")) = true then
           Except.ok (Json.str "")
         else if pyEq kind (.str "toolInvocationSerialized") = true then
           Except.ok (Json.str
             ("__TOOL_INVOCATION__" ++ dumpsJ (.obj fs) ++ "__TOOL_INVOCATION__"))
         else if pyEq kind (.str "progressTaskSerialized") = true then
           Except.ok (Json.str ("__PROGRESS_TASK__" ++ dumpsJ (.obj fs) ++ "__PROGRESS_TASK__"))
         else if pyEq kind (.str "prepareToolInvocation") = true then Except.ok (Json.str "")
         else extractEmphasis fs (.obj fs)) = .ok v
      by_cases h1 : pyEq kind (.str "textEditGroup") = true
      · rw [if_pos h1]; exact ⟨_, rfl⟩
      · rw [if_neg h1]
        by_cases h2 : pyEq kind (.str "inlineReference") = true
        · rw [if_pos h2]
          cases hinl : (getField fs "inlineReference").getD (.obj []) with
          | obj gs =>
            show ∃ v,
              (match getField gs "name" with
               | some name => Except.ok (Json.str ("`" ++ pyStr name ++ "`"))
               | none =>
                 match getField gs "path" with
                 | some (.str p) => Except.ok (Json.str ("`" ++ basename p ++ "`"))
                 | some _ =>
                   Except.error "TypeError: expected str, bytes or os.PathLike object"
                 | none => Except.ok (Json.str "")) = .ok v
            cases hname : getField gs "name" with
            | some name => exact ⟨_, rfl⟩
            | none =>
              cases hpath : getField gs "path" with
              | none => exact ⟨_, rfl⟩
              | some j =>
                cases j with
                | str s => exact ⟨_, rfl⟩
                | null => exact absurd h (by simp [badInlineRefPath, hk, h2, hinl, hname, hpath])
                | bool b => exact absurd h (by simp [badInlineRefPath, hk, h2, hinl, hname, hpath])
                | num n => exact absurd h (by simp [badInlineRefPath, hk, h2, hinl, hname, hpath])
                | arr xs => exact absurd h (by simp [badInlineRefPath, hk, h2, hinl, hname, hpath])
                | obj gs2 => exact absurd h (by simp [badInlineRefPath, hk, h2, hinl, hname, hpath])
          | null => exact ⟨_, rfl⟩
          | bool b => exact ⟨_, rfl⟩
          | num n => exact ⟨_, rfl⟩
          | str s => exact ⟨_, rfl⟩
          | arr xs => exact ⟨_, rfl⟩
        · rw [if_neg h2]
          by_cases h3 : (pyEq kind (.str "undoStop") || pyEq kind (.str "codeblockUri")) = true
          · rw [if_pos h3]; exact ⟨_, rfl⟩
          · rw [if_neg h3]
            by_cases h4 : pyEq kind (.str "toolInvocationSerialized") = true
            · rw [if_pos h4]; exact ⟨_, rfl⟩
            · rw [if_neg h4]
              by_cases h5 : pyEq kind (.str "progressTaskSerialized") = true
              · rw [if_pos h5]; exact ⟨_, rfl⟩
              · rw [if_neg h5]
                by_cases h6 : pyEq kind (.str "prepareToolInvocation") = true
                · rw [if_pos h6]; exact ⟨_, rfl⟩
                · rw [if_neg h6]
                  exact extractEmphasis_ok fs (.obj fs)
  | null => exact extractTail_ok Json.null
  | bool b => exact extractTail_ok (Json.bool b)
  | num n => exact extractTail_ok (Json.num n)
  | str s => exact extractTail_ok (Json.str s)
  | arr xs => exact extractTail_ok (Json.arr xs)

/-- C7 witness: an ordinary markdown-text part is extracted without raising. -/
theorem claim_C7_witness :
    badInlineRefPath (Json.obj [("value", Json.str "hello")]) = false ∧
    ∃ v, extract_text_from_response_part (Json.obj [("value", Json.str "hello")]) =
      .ok v :=
  ⟨by decide, claim_C7 (Json.obj [("value", Json.str "hello")]) (by decide)⟩

/-- C7 counterexample: an inlineReference whose `path` is the number `123`
makes `os.path.basename(123)` raise `TypeError`, so the claim "never raises
on any JSON-like record" is false. -/
theorem claim_C7_cx :
    extract_text_from_response_part
        (Json.obj [("kind", Json.str "inlineReference"),
          ("inlineReference", Json.obj [("path", Json.num 123)])]) =
      .error "TypeError: expected str, bytes or os.PathLike object" := by
  rfl

/-! ## The Text Edit Renderer: `format_text_edit_group` (tool_formatters.py:281-503) -/

/-- Coercion to `str` where the Python code applies a string method or
operator to the value (raises `TypeError`/`AttributeError` otherwise). -/
def asStr : Json → Except String String
  | .str s => .ok s
  | _ => .error "TypeError: expected str"

/-- Python iteration (`for x in v`): lists yield their elements, strings
yield one-character strings, dicts yield their keys, other values raise. -/
def jIterList : Json → Except String (List Json)
  | .arr xs => .ok xs
  | .str s => .ok (s.data.map fun c => .str ⟨[c]⟩)
  | .obj fs => .ok (fs.map fun kv => .str kv.1)
  | _ => .error "TypeError: not iterable"

/-- Lines 301-307: the inner collection loop over one edit group, keeping
dict edits whose `text` is truthy and strips to something non-empty. -/
def collectFromItems : List Json → Except String (List Json)
  | [] => .ok []
  | e :: rest =>
    match e with
    | .obj efs =>
      let text := (getField efs "text").getD (.str "")
      if jsonTruthy text then
        match text with
        | .str s =>
          if pyStrip s == "" then collectFromItems rest
          else do
            let tl ← collectFromItems rest
            .ok (Json.obj efs :: tl)
        | _ => .error "AttributeError: strip"
      else collectFromItems rest
    | _ => collectFromItems rest

/-- Lines 298-307: the outer collection loop over `edits`, skipping falsy
groups. -/
def collectAll : List Json → Except String (List Json)
  | [] => .ok []
  | g :: gs =>
    if jsonTruthy g then do
      let items ← jIterList g
      let a ← collectFromItems items
      let b ← collectAll gs
      .ok (a ++ b)
    else collectAll gs

/-- Line 318: `os.path.splitext(name)[1]` for a basename (the separating
dot must follow a non-dot character). -/
def splitextExt (s : String) : String :=
  let rest := s.data.dropWhile (· = '.')
  if rest.contains '.' then
    ⟨'.' :: (s.data.reverse.takeWhile (fun c => !(c = '.'))).reverse⟩
  else ""

/-- Line 319: extension to syntax-highlighting language. -/
def langOfExt (ext : String) : String :=
  if ext == ".md" then "markdown"
  else if ext == ".py" then "python"
  else if ext == ".json" then "json"
  else ""

/-- Lines 337-343 and 374-379: the per-edit fence length, one more than the
longest backtick run and at least three. -/
def editFence (t : String) : Nat :=
  if maxTickRun t = 0 then 3 else max 3 (maxTickRun t + 1)

/-- Lines 327-335: the single-edit range header. -/
def singleRangeLines (efs : List (String × Json)) : Except String (List String) :=
  let r := (getField efs "range").getD (.obj [])
  if jsonTruthy r then
    match r with
    | .obj rf =>
      let sl := (getField rf "startLineNumber").getD (.str "")
      let el := (getField rf "endLineNumber").getD (.str "")
      if jsonTruthy sl && jsonTruthy el then
        if pyEq sl el then
          .ok ["  <p><strong>Modified line " ++ pyStr sl ++ ":</strong></p>", ""]
        else
          .ok ["  <p><strong>Modified lines " ++ pyStr sl ++ "-" ++ pyStr el ++
               ":</strong></p>", ""]
      else .ok []
    | _ => .error "AttributeError: get"
  else .ok []

/-- Lines 322-353: the one-substantial-edit branch. -/
def singleEditLines (e : Json) (lang : String) : Except String (List String) := do
  let efs ← (match e with
    | .obj efs => Except.ok efs
    | _ => Except.error "AttributeError: get")
  let t ← asStr ((getField efs "text").getD (.str ""))
  let rangeLines ← singleRangeLines efs
  let bt := tickStr (editFence t)
  let clean := if strEnds t "\n" then (⟨t.data.dropLast⟩ : String) else t
  .ok (rangeLines ++ [bt ++ lang, clean, bt])

/-- Lines 364-372: the per-edit range header of the 2-5-edit branch. -/
def multiRangeLines (efs : List (String × Json)) : Except String (List String) :=
  let r := (getField efs "range").getD (.obj [])
  if jsonTruthy r then
    match r with
    | .obj rf =>
      let sl := (getField rf "startLineNumber").getD (.str "")
      let el := (getField rf "endLineNumber").getD (.str "")
      if jsonTruthy sl && jsonTruthy el then
        if pyEq sl el then
          .ok ["  <p><strong>Line " ++ pyStr sl ++ ":</strong></p>", ""]
        else
          .ok ["  <p><strong>Lines " ++ pyStr sl ++ "-" ++ pyStr el ++ ":</strong></p>", ""]
      else .ok []
    | _ => .error "AttributeError: get"
  else .ok []

/-- Lines 356-384: the 2-5-edit branch; `i` drives the blank separator. -/
def multiEditGo (i : Nat) (lang : String) : List Json → Except String (List String)
  | [] => .ok []
  | e :: rest => do
    let efs ← (match e with
      | .obj efs => Except.ok efs
      | _ => Except.error "AttributeError: get")
    let t ← asStr ((getField efs "text").getD (.str ""))
    let sep := if i = 0 then ([] : List String) else [""]
    let rangeLines ← multiRangeLines efs
    let bt := tickStr (editFence t)
    let tl ← multiEditGo (i + 1) lang rest
    .ok (sep ++ rangeLines ++ [bt ++ lang, pyRstrip t, bt] ++ tl)

/-- Lines 392-396: pair each edit with its `startLineNumber` sort key
(default `0`). -/
def buildPairs : List Json → Except String (List (Json × Json))
  | [] => .ok []
  | e :: rest => do
    let efs ← (match e with
      | .obj efs => Except.ok efs
      | _ => Except.error "AttributeError: get")
    let r := (getField efs "range").getD (.obj [])
    let sl ← (if jsonTruthy r then
        match r with
        | .obj rf => Except.ok ((getField rf "startLineNumber").getD (.num 0))
        | _ => Except.error "AttributeError: get"
      else Except.ok (Json.num 0))
    let tl ← buildPairs rest
    .ok ((sl, Json.obj efs) :: tl)

/-- Python `<` on sort keys: numeric (with bool coercion) or string;
anything else raises `TypeError`. -/
def pyLt (a b : Json) : Except String Bool :=
  match toNumQ a, toNumQ b with
  | some x, some y => .ok (decide (x < y))
  | _, _ =>
    match a, b with
    | .str s, .str t => .ok (decide (s < t))
    | _, _ => .error "TypeError: unorderable types"

/-- Stable insertion of one keyed edit: it lands before the first element
whose key is strictly greater. -/
def insertPair (x : Json × Json) : List (Json × Json) → Except String (List (Json × Json))
  | [] => .ok [x]
  | y :: ys => do
    let b ← pyLt x.1 y.1
    if b then .ok (x :: y :: ys)
    else do
      let zs ← insertPair x ys
      .ok (y :: zs)

/-- Accumulating pass of the stable insertion sort. -/
def sortGo : List (Json × Json) → List (Json × Json) → Except String (List (Json × Json))
  | acc, [] => .ok acc
  | acc, x :: xs => do
    let acc2 ← insertPair x acc
    sortGo acc2 xs

/-- Line 397: `sorted_edits.sort(key=lambda x: x[0])` as a stable insertion
sort on the keys. -/
def pySortPairs (l : List (Json × Json)) : Except String (List (Json × Json)) :=
  sortGo [] l

/-- Lines 419-421: the previous edit's effective end line. -/
def prevEndLine (prev : Json × Json) : Except String Json := do
  let pr ← jGetD prev.2 "range" (.obj [])
  if jsonTruthy pr then
    match pr with
    | .obj rf => .ok ((getField rf "endLineNumber").getD prev.1)
    | _ => .error "AttributeError: get"
  else .ok prev.1

/-- Lines 418-424: should `next` be absorbed into the group ending with
`prev`? -/
def groupCond (prev next : Json × Json) : Except String Bool := do
  let pel ← prevEndLine prev
  if pyEq next.1 (.num 0) then .ok false
  else if pyEq pel (.num 0) then .ok false
  else
    match toNumQ pel, toNumQ next.1 with
    | some pe, some nl => .ok (decide (nl ≤ pe + 2))
    | _, _ => .error "TypeError: unsupported operand"

/-- Lines 413-428: greedily absorb consecutive edits, returning the group
tail and the remaining list. -/
def takeGroupGo (prev : Json × Json) :
    List (Json × Json) → Except String (List (Json × Json) × List (Json × Json))
  | [] => .ok ([], [])
  | next :: rest => do
    let c ← groupCond prev next
    if c then do
      let (g, rem) ← takeGroupGo next rest
      .ok (next :: g, rem)
    else .ok ([], next :: rest)

/-- Suffix of a whitespace run after its last newline. -/
def afterLastNl (w : List Char) : List Char :=
  (w.reverse.takeWhile (fun c => !(c = '\n'))).reverse

/-- Scanner for `re.sub(r'\n\s*\n\s*\n+', '\n\n', ·)` (line 453): a match
starts at a newline whose maximal whitespace run holds at least three
newlines and spans through that run's last newline. -/
def collapseGo : Nat → List Char → List Char
  | 0, l => l
  | _ + 1, [] => []
  | fuel + 1, c :: cs =>
    if c = '\n' then
      if 3 ≤ ((c :: cs).takeWhile pyIsSpace).count '\n' then
        '\n' :: '\n' :: collapseGo fuel
          (afterLastNl ((c :: cs).takeWhile pyIsSpace) ++ (c :: cs).dropWhile pyIsSpace)
      else c :: collapseGo fuel cs
    else c :: collapseGo fuel cs

/-- Line 453 at `String` level. -/
def collapseBlankRuns (s : String) : String :=
  ⟨collapseGo s.data.length s.data⟩

/-- Lines 442-447: stripped texts of a consecutive group, skipping `None`
texts. -/
def consPartsOf : List (Json × Json) → Except String (List String)
  | [] => .ok []
  | (_, ce) :: rest => do
    let cefs ← (match ce with
      | .obj cefs => Except.ok cefs
      | _ => Except.error "AttributeError: get")
    let ct := (getField cefs "text").getD (.str "")
    match ct with
    | .null => consPartsOf rest
    | .str s => do
        let tl ← consPartsOf rest
        .ok (pyStrip s :: tl)
    | _ => .error "AttributeError: strip"

/-- Lines 459-471: the comment header of a single (unmerged) edit. -/
def singleGroupHeader (idx : Nat) (r : Json) : Except String String :=
  if jsonTruthy r then
    match r with
    | .obj rf =>
      let sl := (getField rf "startLineNumber").getD (.str "")
      let el := (getField rf "endLineNumber").getD (.str "")
      if jsonTruthy sl && jsonTruthy el then
        if pyEq sl el then .ok ("# Line " ++ pyStr sl ++ ":")
        else .ok ("# Lines " ++ pyStr sl ++ "-" ++ pyStr el ++ ":")
      else .ok ("# Edit " ++ intStr (idx + 1) ++ ":")
    | _ => .error "AttributeError: get"
  else .ok ("# Edit " ++ intStr (idx + 1) ++ ":")

/-- Lines 430-473: render one group into its `combined_content` entries
(`idx` is the group leader's index, `t` its text, `efs` its fields). -/
def formatGroup (idx : Nat) (leader : Json × Json) (g : List (Json × Json))
    (t : String) (efs : List (String × Json)) : Except String (List String) :=
  match g with
  | [] => do
      let header ← singleGroupHeader idx ((getField efs "range").getD (.obj []))
      .ok [header, pyRstrip t]
  | _ :: _ => do
    let lastP := g.getLastD leader
    let lastLine ← prevEndLine lastP
    let header := if jsonTruthy leader.1 && jsonTruthy lastLine then
        ["# Lines " ++ pyStr leader.1 ++ "-" ++ pyStr lastLine ++ ":"]
      else []
    let parts ← consPartsOf (leader :: g)
    if parts.isEmpty then .ok header
    else
      let cc := pyStrip (collapseBlankRuns (strJoinNl parts))
      if cc == "" then .ok header else .ok (header ++ [cc])

/-- Lines 403-478: the consolidation loop over the sorted edits (fuel is
the list length, `idx` the absolute index of the current group leader);
returns `combined_content` and `has_code_blocks`. -/
def groupGo : Nat → Nat → List (Json × Json) → Except String (List String × Bool)
  | _, _, [] => .ok ([], false)
  | 0, _, _ :: _ => .ok ([], false)
  | fuel + 1, idx, (sl, e) :: rest => do
    let efs ← (match e with
      | .obj efs => Except.ok efs
      | _ => Except.error "AttributeError: get")
    let t ← asStr ((getField efs "text").getD (.str ""))
    let hc := strContains t "```"
    let (g, rem) ← takeGroupGo (sl, e) rest
    let entry ← formatGroup idx (sl, e) g t efs
    let (tlLines, tlHc) ← groupGo fuel (idx + 1 + g.length) rem
    let sep := if rem.isEmpty then ([] : List String) else [""]
    .ok (entry ++ sep ++ tlLines, hc || tlHc)

/-- Lines 480-495: fence sizing for the consolidated block. -/
def consolidatedFence (hasCode : Bool) (final : String) : Nat :=
  if hasCode || strContains final "```" then
    max ((if maxTickRun final = 0 then 3 else maxTickRun final) + 1) 4
  else 3

/-- Lines 386-495: the more-than-five-edits branch. -/
def consolidatedLines (es : List Json) (lang : String) : Except String (List String) := do
  let pairs ← buildPairs es
  let sorted ← pySortPairs pairs
  let (combined, hasCode) ← groupGo sorted.length 0 sorted
  let final := strJoinNl combined
  let fenceBlock := if hasCode || strContains final "```" then
      [tickStr (consolidatedFence hasCode final) ++ lang, final,
       tickStr (consolidatedFence hasCode final)]
    else ["```" ++ lang, final, "```"]
  .ok (["  <p><strong>Multiple file changes (" ++ intStr (es.length : Int) ++
        " edits)</strong></p>", ""] ++ fenceBlock)

/-- Lines 283-500: the body of `format_text_edit_group` (the code inside
the `try`), with every Python exception surfaced as `.error`. -/
def format_text_edit_group_body (edit_data : Json) : Except String String := do
  let fs ← (match edit_data with
    | .obj fs => Except.ok fs
    | _ => Except.error "AttributeError: get")
  let uri := (getField fs "uri").getD (.obj [])
  let ug ← (match uri with
    | .obj ug => Except.ok ug
    | _ => Except.error "AttributeError: get")
  let fp1 := (getField ug "fsPath").getD (.str "")
  let file_path := if jsonTruthy fp1 then fp1
    else (getField ug "path").getD (.str "Unknown file")
  let file_name ← (if jsonTruthy file_path then
      match file_path with
      | .str s => Except.ok (basename s)
      | _ => Except.error "TypeError: expected str, bytes or os.PathLike object"
    else Except.ok "Unknown file")
  let edits := (getField fs "edits").getD (.arr [])
  if jsonTruthy edits = false then .ok ""
  else do
    let groups ← jIterList edits
    let all_edits ← collectAll groups
    if all_edits.isEmpty then .ok ""
    else do
      let file_ext := if file_name == "" then "" else splitextExt file_name
      let lang := langOfExt file_ext
      let body ← (match all_edits with
        | [e] => singleEditLines e lang
        | es => if es.length ≤ 5 then multiEditGo 0 lang es
                else consolidatedLines es lang)
      .ok (strJoinNl (["<details>",
            "  <summary>üõ†Ô∏è File Edit: " ++
              file_name ++ "</summary>"]
            ++ body ++ ["", "</details>"]) ++ "\n\n")

/-- Lines 281-503: `format_text_edit_group` with its enclosing `try/except`
mapping every exception to `""`. -/
def format_text_edit_group (edit_data : Json) : String :=
  match format_text_edit_group_body edit_data with
  | .ok s => s
  | .error _ => ""

/-- C8: whenever the Text Edit Renderer's construction fails with any
exception (surfaced by the embedding as `.error`), `format_text_edit_group`
returns the empty string: the `try/except` yields `""` instead of raising
or emitting partial markdown. -/
theorem claim_C8 (d : Json) (e : String)
    (h : format_text_edit_group_body d = .error e) :
    format_text_edit_group d = "" := by
  unfold format_text_edit_group
  rw [h]

/-- C8 witness: a record whose `uri` is the integer `1` makes `uri.get`
raise `AttributeError`, and the renderer returns `""`. -/
theorem claim_C8_witness :
    format_text_edit_group_body (.obj [("uri", .num 1)]) = .error "AttributeError: get" ∧
    format_text_edit_group (.obj [("uri", .num 1)]) = "" :=
  ⟨rfl, claim_C8 (.obj [("uri", .num 1)]) "AttributeError: get" rfl⟩

/-! ## Sorting and grouping facts for the consolidated branch -/

/-- Numeric sort key of a keyed edit (total on the records C4 quantifies
over). -/
def sortKey (p : Json × Json) : Int := (toNumQ p.1).getD 0

theorem getField_ne_nil {fs : List (String × Json)} {k : String} {v : Json}
    (h : getField fs k = some v) : fs ≠ [] := by
  intro he
  subst he
  simp [getField] at h

theorem insertPair_perm :
    ∀ (ys : List (Json × Json)) (x : Json × Json) (zs : List (Json × Json)),
      insertPair x ys = .ok zs → zs.Perm (x :: ys) := by
  intro ys
  induction ys with
  | nil =>
    intro x zs h
    simp [insertPair] at h
    subst h
    exact List.Perm.refl _
  | cons y ys ih =>
    intro x zs h
    unfold insertPair at h
    cases hlt : pyLt x.1 y.1 with
    | error e =>
      rw [hlt] at h
      simp only [bind, Except.bind] at h
      exact Except.noConfusion h
    | ok b =>
      rw [hlt] at h
      simp only [bind, Except.bind] at h
      cases b with
      | true =>
        simp at h
        subst h
        exact List.Perm.refl _
      | false =>
        simp only [Bool.false_eq_true, if_false] at h
        cases hins : insertPair x ys with
        | error e =>
          rw [hins] at h
          simp only [bind, Except.bind] at h
          exact Except.noConfusion h
        | ok zs' =>
          rw [hins] at h
          simp only [bind, Except.bind, Except.ok.injEq] at h
          subst h
          exact (List.Perm.cons y (ih x zs' hins)).trans (List.Perm.swap x y ys)

theorem sortKey_num {p : Json × Json} {n : Int} (h : p.1 = Json.num n) :
    sortKey p = n := by
  simp [sortKey, h, toNumQ]

theorem insertPair_sorted :
    ∀ (ys : List (Json × Json)) (x : Json × Json) (zs : List (Json × Json)),
      (∀ p ∈ x :: ys, ∃ n : Int, p.1 = Json.num n) →
      List.Pairwise (fun a b => sortKey a ≤ sortKey b) ys →
      insertPair x ys = .ok zs →
      List.Pairwise (fun a b => sortKey a ≤ sortKey b) zs := by
  intro ys
  induction ys with
  | nil =>
    intro x zs _ _ h
    simp [insertPair] at h
    subst h
    simp
  | cons y ys ih =>
    intro x zs hkeys hsort h
    obtain ⟨nx, hnx⟩ := hkeys x (by simp)
    obtain ⟨ny, hny⟩ := hkeys y (by simp)
    unfold insertPair at h
    rw [show pyLt x.1 y.1 = .ok (decide (nx < ny)) by
      rw [hnx, hny]; simp [pyLt, toNumQ]] at h
    simp only [bind, Except.bind] at h
    by_cases hlt : nx < ny
    · rw [if_pos (by simp [hlt])] at h
      rw [Except.ok.injEq] at h
      subst h
      refine List.pairwise_cons.mpr ⟨?_, hsort⟩
      intro z hz
      rw [sortKey_num hnx]
      rcases List.mem_cons.mp hz with hz | hz
      · subst hz
        rw [sortKey_num hny]
        exact le_of_lt hlt
      · have : sortKey y ≤ sortKey z := (List.pairwise_cons.mp hsort).1 z hz
        rw [sortKey_num hny] at this
        exact le_trans (le_of_lt hlt) this
    · rw [if_neg (by simp [hlt])] at h
      cases hins : insertPair x ys with
      | error e =>
        rw [hins] at h
        simp only [bind, Except.bind] at h
        exact Except.noConfusion h
      | ok zs' =>
        rw [hins] at h
        simp only [bind, Except.bind, Except.ok.injEq] at h
        subst h
        have hzs' : List.Pairwise (fun a b => sortKey a ≤ sortKey b) zs' :=
          ih x zs' (by
            intro p hp
            rcases List.mem_cons.mp hp with hp | hp
            · exact hkeys p (by simp [hp])
            · exact hkeys p (by simp [hp]))
            (List.pairwise_cons.mp hsort).2 hins
        refine List.pairwise_cons.mpr ⟨?_, hzs'⟩
        intro z hz
        have hzmem : z ∈ x :: ys := (insertPair_perm ys x zs' hins).mem_iff.mp hz
        rw [sortKey_num hny]
        rcases List.mem_cons.mp hzmem with hzz | hzz
        · subst hzz
          rw [sortKey_num hnx]
          omega
        · have := (List.pairwise_cons.mp hsort).1 z hzz
          rw [sortKey_num hny] at this
          exact this

theorem sortGo_ok :
    ∀ (l acc out : List (Json × Json)),
      (∀ p ∈ acc ++ l, ∃ n : Int, p.1 = Json.num n) →
      List.Pairwise (fun a b => sortKey a ≤ sortKey b) acc →
      sortGo acc l = .ok out →
      out.Perm (acc ++ l) ∧ List.Pairwise (fun a b => sortKey a ≤ sortKey b) out := by
  intro l
  induction l with
  | nil =>
    intro acc out hkeys hsort h
    simp [sortGo] at h
    subst h
    refine ⟨?_, hsort⟩
    rw [List.append_nil]
  | cons x xs ih =>
    intro acc out hkeys hsort h
    unfold sortGo at h
    cases hins : insertPair x acc with
    | error e =>
      rw [hins] at h
      simp only [bind, Except.bind] at h
      exact Except.noConfusion h
    | ok acc2 =>
      rw [hins] at h
      simp only [bind, Except.bind] at h
      have hperm2 : acc2.Perm (x :: acc) := insertPair_perm acc x acc2 hins
      have hkeys2 : ∀ p ∈ acc2 ++ xs, ∃ n : Int, p.1 = Json.num n := by
        intro p hp
        rcases List.mem_append.mp hp with hp | hp
        · rcases List.mem_cons.mp (hperm2.mem_iff.mp hp) with hp | hp
          · subst hp; exact hkeys p (by simp)
          · exact hkeys p (by simp [hp])
        · exact hkeys p (by simp [hp])
      have hsort2 : List.Pairwise (fun a b => sortKey a ≤ sortKey b) acc2 :=
        insertPair_sorted acc x acc2
          (by
            intro p hp
            rcases List.mem_cons.mp hp with hp | hp
            · subst hp; exact hkeys p (by simp)
            · exact hkeys p (by simp [hp]))
          hsort hins
      obtain ⟨hpo, hso⟩ := ih acc2 out hkeys2 hsort2 h
      exact ⟨hpo.trans ((hperm2.append_right xs).trans List.perm_middle.symm), hso⟩

theorem groupCond_nums (ps : Json) (pfs prf : List (String × Json)) (pe ns : Int)
    (e₂ : Json) (h1 : getField pfs "range" = some (.obj prf))
    (h2 : getField prf "endLineNumber" = some (.num pe))
    (hpe : 1 ≤ pe) (hns : 1 ≤ ns) :
    groupCond (ps, .obj pfs) (.num ns, e₂) = .ok (decide (ns ≤ pe + 2)) := by
  have hne : prf ≠ [] := getField_ne_nil h2
  unfold groupCond prevEndLine
  simp only [jGetD, h1, Option.getD_some, bind, Except.bind]
  rw [if_pos (by simp [jsonTruthy, hne])]
  simp only [h2, Option.getD_some]
  rw [if_neg (by simp [pyEq, toNumQ]; omega)]
  rw [if_neg (by simp [pyEq, toNumQ]; omega)]
  simp [toNumQ]

theorem takeGroupGo_stop (prev next : Json × Json) (rest : List (Json × Json))
    (h : groupCond prev next = .ok false) :
    takeGroupGo prev (next :: rest) = .ok ([], next :: rest) := by
  unfold takeGroupGo
  rw [h]
  simp [bind, Except.bind]

theorem takeGroupGo_take (prev next : Json × Json) (rest : List (Json × Json))
    (g rem : List (Json × Json)) (h : groupCond prev next = .ok true)
    (h2 : takeGroupGo next rest = .ok (g, rem)) :
    takeGroupGo prev (next :: rest) = .ok (next :: g, rem) := by
  unfold takeGroupGo
  rw [h]
  simp [bind, Except.bind, h2]

/-- Single-line edit record used by the C4 example. -/
def edJ (s e : Int) (t : String) : Json :=
  .obj [("range", .obj [("startLineNumber", .num s), ("endLineNumber", .num e)]),
        ("text", .str t)]

/-- C4 example: one edit group with 7 qualifying edits at lines
1,2,10,11,12,20,21, given out of order. -/
def cx4input : Json :=
  .obj [("uri", .obj [("path", .str "/a/t.py")]),
        ("edits", .arr [.arr [edJ 10 10 "x3", edJ 1 1 "x1", edJ 20 20 "x6",
          edJ 2 2 "x2", edJ 11 11 "x4", edJ 21 21 "x7", edJ 12 12 "x5"]])]

/-- Expected consolidated rendering of `cx4input`. -/
def cx4expected : String :=
  "<details>\n  <summary>\uF8FFüõ†Ô∏è File Edit: t.py</summary>\n  <p><strong>Multiple file changes (7 edits)</strong></p>\n\n```python\n# Lines 1-2:\nx1\nx2\n\n# Lines 10-12:\nx3\nx4\nx5\n\n# Lines 20-21:\nx6\nx7\n```\n\n</details>\n\n"

set_option maxRecDepth 16384 in
/-- C4: the 7-edit example at lines [1,2,10,11,12,20,21] consolidates into
exactly the three labeled groups 1-2, 10-12 and 20-21 inside one fenced
block; in general the >5-edit path sorts the keyed edits by start line
(stable, ascending) and absorbs the next edit into the current group
exactly when its start line is at most the previous edit's end line plus 2
(for positive line numbers). -/
theorem claim_C4 :
    format_text_edit_group cx4input = cx4expected
    ∧ (∀ (l out : List (Json × Json)),
        (∀ p ∈ l, ∃ n : Int, p.1 = Json.num n) →
        pySortPairs l = .ok out →
        out.Perm l ∧ List.Pairwise (fun a b => sortKey a ≤ sortKey b) out)
    ∧ (∀ (ps : Json) (pfs prf : List (String × Json)) (pe ns : Int) (e₂ : Json),
        getField pfs "range" = some (.obj prf) →
        getField prf "endLineNumber" = some (.num pe) →
        1 ≤ pe → 1 ≤ ns →
        groupCond (ps, .obj pfs) (.num ns, e₂) = .ok (decide (ns ≤ pe + 2)))
    ∧ (∀ (prev next : Json × Json) (rest : List (Json × Json)),
        groupCond prev next = .ok false →
        takeGroupGo prev (next :: rest) = .ok ([], next :: rest))
    ∧ (∀ (prev next : Json × Json) (rest g rem : List (Json × Json)),
        groupCond prev next = .ok true →
        takeGroupGo next rest = .ok (g, rem) →
        takeGroupGo prev (next :: rest) = .ok (next :: g, rem)) := by
  refine ⟨by decide, ?_, groupCond_nums, takeGroupGo_stop, takeGroupGo_take⟩
  intro l out hkeys h
  have := sortGo_ok l [] out (by simpa using hkeys) (by simp) h
  simpa using this

/-- C4 witness: sorting two concretely keyed edits yields the ascending
permutation, and the merge condition evaluates to the within-2 test on
concrete line numbers. -/
theorem claim_C4_witness :
    ([((Json.num 1 : Json), Json.null), (Json.num 3, Json.null)]).Perm
        [(Json.num 3, Json.null), (Json.num 1, Json.null)]
    ∧ List.Pairwise (fun a b => sortKey a ≤ sortKey b)
        [((Json.num 1 : Json), Json.null), (Json.num 3, Json.null)]
    ∧ groupCond (Json.num 1, Json.obj [("range", Json.obj [("endLineNumber", Json.num 2)])])
        (Json.num 4, Json.null) = .ok (decide ((4:Int) ≤ 2 + 2)) := by
  have hs := claim_C4.2.1 [(Json.num 3, Json.null), (Json.num 1, Json.null)]
    [(Json.num 1, Json.null), (Json.num 3, Json.null)]
    (by
      intro p hp
      rcases List.mem_cons.mp hp with h | h
      · exact ⟨3, by rw [h]⟩
      · rw [List.mem_singleton] at h
        exact ⟨1, by rw [h]⟩)
    rfl
  exact ⟨hs.1, hs.2,
    claim_C4.2.2.1 (Json.num 1) [("range", Json.obj [("endLineNumber", Json.num 2)])]
      [("endLineNumber", Json.num 2)] 2 4 Json.null rfl rfl (by norm_num) (by norm_num)⟩

/-! ## Backtick-run preservation through the consolidated pipeline -/

theorem infix_split_left {t a b : List Char} (h : t <:+: a ++ b) (hne : t ≠ []) :
    (∃ c, c ∈ t ∧ c ∈ a) ∨ t <:+: b := by
  obtain ⟨s₁, s₂, hh⟩ := h
  by_cases hlen : a.length ≤ s₁.length
  · right
    rw [List.append_assoc] at hh
    have h2 := congrArg (List.drop a.length) hh
    rw [List.drop_append_of_le_length hlen,
        List.drop_append_of_le_length (le_refl _), List.drop_length,
        List.nil_append] at h2
    exact ⟨s₁.drop a.length, s₂, by rw [List.append_assoc]; exact h2⟩
  · left
    push_neg at hlen
    cases t with
    | nil => exact absurd rfl hne
    | cons c t' =>
      refine ⟨c, by simp, ?_⟩
      have h1 : (s₁ ++ (c :: t') ++ s₂)[s₁.length]? = some c := by
        rw [List.append_assoc, List.getElem?_append_right (le_refl _)]
        simp
      rw [hh] at h1
      have h2 : (a ++ b)[s₁.length]? = a[s₁.length]? := by
        rw [List.getElem?_append, if_pos hlen]
      rw [h2] at h1
      exact List.getElem?_mem h1

theorem infix_split_right {t a b : List Char} (h : t <:+: a ++ b) (hne : t ≠ []) :
    (∃ c, c ∈ t ∧ c ∈ b) ∨ t <:+: a := by
  have hr : t.reverse <:+: b.reverse ++ a.reverse := by
    rw [← List.reverse_append]
    exact List.reverse_infix.mpr h
  rcases infix_split_left hr (by simpa using hne) with ⟨c, hc1, hc2⟩ | hinf
  · exact Or.inl ⟨c, by simpa using hc1, by simpa using hc2⟩
  · exact Or.inr (List.reverse_infix.mp hinf)

theorem infix_sandwich_mid {t a m b : List Char} (h : t <:+: a ++ m ++ b)
    (hne : t ≠ []) (ha : ∀ c ∈ t, c ∉ a) (hb : ∀ c ∈ t, c ∉ b) : t <:+: m := by
  rw [List.append_assoc] at h
  rcases infix_split_left h hne with ⟨c, hc1, hc2⟩ | h2
  · exact absurd hc2 (ha c hc1)
  · rcases infix_split_right h2 hne with ⟨c, hc1, hc2⟩ | h3
    · exact absurd hc2 (hb c hc1)
    · exact h3

theorem tick_not_ws : pyIsSpace '`' = false := by decide

theorem mem_replicate_tick {k : Nat} {c : Char} (h : c ∈ List.replicate k '`') :
    c = '`' := List.eq_of_mem_replicate h

theorem replicate_tick_ne_nil {k : Nat} (hk : 0 < k) :
    (List.replicate k '`' : List Char) ≠ [] := by
  simp [List.replicate_eq_nil_iff]
  omega

theorem hasRun_pyStrip {k : Nat} {s : String} (hk : 0 < k) (h : HasRun k s) :
    HasRun k (pyStrip s) := by
  obtain ⟨a, b, hdec, hwa, hwb⟩ := pyStrip_decomp s
  unfold HasRun at h ⊢
  rw [hdec] at h
  refine infix_sandwich_mid h (replicate_tick_ne_nil hk) ?_ ?_
  · intro c hc hca
    have h1 := hwa c hca
    rw [mem_replicate_tick hc] at h1
    rw [tick_not_ws] at h1
    exact Bool.noConfusion h1
  · intro c hc hcb
    have h1 := hwb c hcb
    rw [mem_replicate_tick hc] at h1
    rw [tick_not_ws] at h1
    exact Bool.noConfusion h1

theorem pyRstrip_decomp (s : String) :
    ∃ b, s.data = (pyRstrip s).data ++ b ∧ (∀ c ∈ b, pyIsSpace c = true) := by
  refine ⟨(s.data.reverse.takeWhile pyIsSpace).reverse, ?_, ?_⟩
  · show s.data = wsDropRight s.data ++ _
    unfold wsDropRight
    conv_lhs => rw [← List.reverse_reverse s.data]
    conv_lhs =>
      rw [← List.takeWhile_append_dropWhile (p := pyIsSpace) (l := s.data.reverse)]
    rw [List.reverse_append]
  · intro c hc
    rw [List.mem_reverse] at hc
    exact List.mem_takeWhile_imp hc

theorem hasRun_pyRstrip {k : Nat} {s : String} (hk : 0 < k) (h : HasRun k s) :
    HasRun k (pyRstrip s) := by
  obtain ⟨b, hdec, hwb⟩ := pyRstrip_decomp s
  unfold HasRun at h ⊢
  rw [hdec] at h
  rcases infix_split_right h (replicate_tick_ne_nil hk) with ⟨c, hc1, hc2⟩ | h2
  · have h1 := hwb c hc2
    rw [mem_replicate_tick hc1] at h1
    rw [tick_not_ws] at h1
    exact Bool.noConfusion h1
  · exact h2

theorem hasRun_joinNl_mem {k : Nat} {p : String} {ps : List String}
    (hp : p ∈ ps) (h : HasRun k p) : HasRun k (strJoinNl ps) := by
  induction ps with
  | nil => exact absurd hp (List.not_mem_nil p)
  | cons x rest ih =>
    rcases List.mem_cons.mp hp with hx | hx
    · subst hx
      cases rest with
      | nil => exact h
      | cons y ys =>
        show List.replicate k '`' <:+: joinNl (p.data :: (y :: ys).map String.data)
        rw [show joinNl (p.data :: (y :: ys).map String.data)
            = p.data ++ '\n' :: joinNl ((y :: ys).map String.data) from rfl]
        exact h.trans (List.prefix_append p.data _).isInfix
    · have h2 := ih hx
      cases rest with
      | nil => exact absurd hx (List.not_mem_nil p)
      | cons y ys =>
        show List.replicate k '`' <:+: joinNl (x.data :: (y :: ys).map String.data)
        rw [show joinNl (x.data :: (y :: ys).map String.data)
            = x.data ++ '\n' :: joinNl ((y :: ys).map String.data) from rfl]
        exact (h2.trans (List.suffix_cons '\n' _).isInfix).trans
          (List.suffix_append x.data _).isInfix

theorem collapse_tick_pre :
    ∀ (fuel j : Nat) (l : List Char), List.replicate j '`' <+: l →
      List.replicate j '`' <+: collapseGo fuel l := by
  intro fuel
  induction fuel with
  | zero => intro j l h; exact h
  | succ fuel ih =>
    intro j l h
    cases j with
    | zero => simp
    | succ j =>
      rw [List.replicate_succ] at h
      obtain ⟨l', rfl⟩ : ∃ l', l = '`' :: l' := by
        obtain ⟨t, ht⟩ := h
        exact ⟨List.replicate j '`' ++ t, by rw [← ht]; rfl⟩
      have h2 : List.replicate j '`' <+: l' := (List.cons_prefix_cons.mp h).2
      rw [show collapseGo (fuel + 1) ('`' :: l') = '`' :: collapseGo fuel l' by
        simp only [collapseGo]; rw [if_neg (by decide)]]
      rw [List.replicate_succ, List.cons_prefix_cons]
      exact ⟨rfl, ih j l' h2⟩

theorem collapse_tick_infix :
    ∀ (fuel : Nat) {k : Nat} (l : List Char), 0 < k →
      List.replicate k '`' <:+: l → List.replicate k '`' <:+: collapseGo fuel l := by
  intro fuel
  induction fuel with
  | zero => intro k l hk h; exact h
  | succ fuel ih =>
    intro k l hk h
    cases l with
    | nil => exact h
    | cons c cs =>
      rcases List.infix_cons_iff.mp h with hpre | htail
      · exact (collapse_tick_pre (fuel + 1) k (c :: cs) hpre).isInfix
      · by_cases hc : c = '\n'
        · subst hc
          by_cases hcnt : 3 ≤ (List.takeWhile pyIsSpace ('\n' :: cs)).count '\n'
          · rw [show collapseGo (fuel + 1) ('\n' :: cs)
                = '\n' :: '\n' :: collapseGo fuel
                    (afterLastNl (List.takeWhile pyIsSpace ('\n' :: cs))
                      ++ List.dropWhile pyIsSpace ('\n' :: cs)) by
              simp only [collapseGo]
              rw [if_pos trivial, if_pos hcnt]]
            have hwr : ('\n' :: cs) = List.takeWhile pyIsSpace ('\n' :: cs)
                ++ List.dropWhile pyIsSpace ('\n' :: cs) :=
              (List.takeWhile_append_dropWhile (p := pyIsSpace) (l := '\n' :: cs)).symm
            rw [hwr] at h
            rcases infix_split_left h (replicate_tick_ne_nil hk) with ⟨x, hx1, hx2⟩ | h2
            · have h1 := List.mem_takeWhile_imp hx2
              rw [mem_replicate_tick hx1] at h1
              rw [tick_not_ws] at h1
              exact Bool.noConfusion h1
            · have h3 := h2.trans (List.suffix_append
                (afterLastNl (List.takeWhile pyIsSpace ('\n' :: cs)))
                (List.dropWhile pyIsSpace ('\n' :: cs))).isInfix
              exact ((ih _ hk h3).trans (List.suffix_cons '\n' _).isInfix).trans
                (List.suffix_cons '\n' _).isInfix
          · rw [show collapseGo (fuel + 1) ('\n' :: cs) = '\n' :: collapseGo fuel cs by
              simp only [collapseGo]
              rw [if_pos trivial, if_neg hcnt]]
            exact (ih cs hk htail).trans (List.suffix_cons '\n' _).isInfix
        · rw [show collapseGo (fuel + 1) (c :: cs) = c :: collapseGo fuel cs by
            simp only [collapseGo]
            rw [if_neg hc]]
          exact (ih cs hk htail).trans (List.suffix_cons c _).isInfix

theorem hasRun_collapse {k : Nat} {s : String} (hk : 0 < k) (h : HasRun k s) :
    HasRun k (collapseBlankRuns s) :=
  collapse_tick_infix s.data.length s.data hk h

theorem maxRunAux_ge :
    ∀ (l : List Char) (cur best : Nat),
      cur ≤ maxRunAux cur best l ∧ best ≤ maxRunAux cur best l := by
  intro l
  induction l with
  | nil => intro cur best; constructor <;> simp [maxRunAux]
  | cons c cs ih =>
    intro cur best
    unfold maxRunAux
    by_cases hc : c = '`'
    · rw [if_pos hc]
      have h1 := ih (cur + 1) best
      omega
    · rw [if_neg hc]
      have h1 := ih 0 (max cur best)
      omega

theorem tick_prefix_maxRunAux :
    ∀ (k : Nat) (l : List Char) (cur best : Nat),
      List.replicate k '`' <+: l → cur + k ≤ maxRunAux cur best l := by
  intro k
  induction k with
  | zero =>
    intro l cur best _
    have := maxRunAux_ge l cur best
    omega
  | succ k ih =>
    intro l cur best h
    rw [List.replicate_succ] at h
    obtain ⟨l', rfl⟩ : ∃ l', l = '`' :: l' := by
      obtain ⟨t, ht⟩ := h
      exact ⟨List.replicate k '`' ++ t, by rw [← ht]; rfl⟩
    have h2 : List.replicate k '`' <+: l' := (List.cons_prefix_cons.mp h).2
    unfold maxRunAux
    rw [if_pos rfl]
    have := ih l' (cur + 1) best h2
    omega

theorem tick_infix_maxRunAux :
    ∀ (l : List Char) (k cur best : Nat),
      List.replicate k '`' <:+: l → k ≤ maxRunAux cur best l := by
  intro l
  induction l with
  | nil =>
    intro k cur best h
    rw [List.infix_nil] at h
    have : k = 0 := by
      by_contra hne
      exact absurd h (replicate_tick_ne_nil (Nat.pos_of_ne_zero hne))
    omega
  | cons c cs ih =>
    intro k cur best h
    rcases List.infix_cons_iff.mp h with hpre | htail
    · have := tick_prefix_maxRunAux k (c :: cs) cur best hpre
      omega
    · unfold maxRunAux
      by_cases hc : c = '`'
      · rw [if_pos hc]
        exact ih k (cur + 1) best htail
      · rw [if_neg hc]
        exact ih k 0 (max cur best) htail

theorem hasRun_le_maxRun {k : Nat} {s : String} (h : HasRun k s) :
    k ≤ maxTickRun s :=
  tick_infix_maxRunAux s.data k 0 0 h

theorem hasRun_contains_ticks {k : Nat} {s : String} (h3 : 3 ≤ k)
    (h : HasRun k s) : strContains s "```" = true := by
  rw [strContains_iff]
  have hpat : ("```" : String).data = List.replicate 3 '`' := rfl
  rw [hpat]
  have hpre : (List.replicate 3 '`' : List Char) <+: List.replicate k '`' := by
    refine ⟨List.replicate (k - 3) '`', ?_⟩
    rw [← List.replicate_add]
    congr 1
    omega
  exact hpre.isInfix.trans h

theorem editFence_gt {k : Nat} {t : String} (hk : 0 < k) (h : HasRun k t) :
    k < editFence t := by
  have hm := hasRun_le_maxRun h
  unfold editFence
  rw [if_neg (by omega)]
  have h2 := Nat.le_max_right 3 (maxTickRun t + 1)
  omega

theorem consolidatedFence_gt {k : Nat} (hasCode : Bool) (final : String)
    (hk : 0 < k) (h : HasRun k final) : k < consolidatedFence hasCode final := by
  by_cases hcond : (hasCode || strContains final "```") = true
  · unfold consolidatedFence
    rw [if_pos hcond]
    have hm := hasRun_le_maxRun h
    rw [if_neg (by omega)]
    have h2 := Nat.le_max_left (maxTickRun final + 1) 4
    omega
  · unfold consolidatedFence
    rw [if_neg hcond]
    by_cases h3 : 3 ≤ k
    · exact absurd (hasRun_contains_ticks h3 h)
        (by
          intro hcont
          exact hcond (by rw [hcont]; simp))
    · omega

theorem consolidatedFence_code (final : String) :
    4 ≤ consolidatedFence true final := by
  unfold consolidatedFence
  rw [if_pos (by simp)]
  exact Nat.le_max_right _ 4

theorem takeGroupGo_append :
    ∀ (rest : List (Json × Json)) (prev : Json × Json) (g rem : List (Json × Json)),
      takeGroupGo prev rest = .ok (g, rem) → rest = g ++ rem := by
  intro rest
  induction rest with
  | nil =>
    intro prev g rem h
    simp only [takeGroupGo, Except.ok.injEq, Prod.mk.injEq] at h
    rw [← h.1, ← h.2]
    rfl
  | cons next rest ih =>
    intro prev g rem h
    unfold takeGroupGo at h
    cases hc : groupCond prev next with
    | error e =>
      rw [hc] at h
      simp only [bind, Except.bind] at h
      exact Except.noConfusion h
    | ok b =>
      rw [hc] at h
      simp only [bind, Except.bind] at h
      cases b with
      | false =>
        simp only [Bool.false_eq_true, if_false, Except.ok.injEq, Prod.mk.injEq] at h
        rw [← h.1, ← h.2]
        rfl
      | true =>
        simp only [if_true] at h
        cases htg : takeGroupGo next rest with
        | error e =>
          rw [htg] at h
          simp only [bind, Except.bind] at h
          exact Except.noConfusion h
        | ok pr =>
          rw [htg] at h
          simp only [bind, Except.bind, Except.ok.injEq] at h
          have hrest := ih next pr.1 pr.2 (by rw [htg])
          have hg : next :: pr.1 = g := congrArg Prod.fst h
          have hr : pr.2 = rem := congrArg Prod.snd h
          rw [← hg, ← hr, hrest]
          rfl

theorem consPartsOf_mem :
    ∀ (full : List (Json × Json)) (parts : List String) (sl : Json)
      (efs : List (String × Json)) (tx : String),
      consPartsOf full = .ok parts → (sl, Json.obj efs) ∈ full →
      getField efs "text" = some (.str tx) → pyStrip tx ∈ parts := by
  intro full
  induction full with
  | nil =>
    intro parts sl efs tx _ hmem _
    exact absurd hmem (List.not_mem_nil _)
  | cons hd rest ih =>
    intro parts sl efs tx h hmem hget
    obtain ⟨s0, ce⟩ := hd
    unfold consPartsOf at h
    rcases List.mem_cons.mp hmem with heq | hmem'
    · have hce : ce = Json.obj efs := (congrArg Prod.snd heq).symm
      rw [hce] at h
      simp only [bind, Except.bind, hget, Option.getD_some] at h
      cases hrest : consPartsOf rest with
      | error e =>
        rw [hrest] at h
        exact Except.noConfusion h
      | ok tl =>
        rw [hrest] at h
        simp only [bind, Except.bind, Except.ok.injEq] at h
        rw [← h]
        simp
    · cases ce with
      | obj cefs =>
        simp only [bind, Except.bind] at h
        cases hct : (getField cefs "text").getD (.str "") with
        | null =>
          rw [hct] at h
          exact ih parts sl efs tx h hmem' hget
        | str s =>
          rw [hct] at h
          cases hrest : consPartsOf rest with
          | error e =>
            rw [hrest] at h
            simp only [bind, Except.bind] at h
            exact Except.noConfusion h
          | ok tl =>
            rw [hrest] at h
            simp only [bind, Except.bind, Except.ok.injEq] at h
            rw [← h]
            exact List.mem_cons_of_mem _ (ih tl sl efs tx hrest hmem' hget)
        | bool b => rw [hct] at h; exact Except.noConfusion h
        | num n => rw [hct] at h; exact Except.noConfusion h
        | arr xs => rw [hct] at h; exact Except.noConfusion h
        | obj gs => rw [hct] at h; exact Except.noConfusion h
      | null => exact Except.noConfusion h
      | bool b => exact Except.noConfusion h
      | num n => exact Except.noConfusion h
      | str s => exact Except.noConfusion h
      | arr xs => exact Except.noConfusion h

theorem formatGroup_run_single (idx : Nat) (leader : Json × Json) (t : String)
    (efs : List (String × Json)) (entry : List String) (k : Nat)
    (h : formatGroup idx leader [] t efs = .ok entry) (hk : 0 < k)
    (hr : HasRun k t) : ∃ l ∈ entry, HasRun k l := by
  unfold formatGroup at h
  cases hh : singleGroupHeader idx ((getField efs "range").getD (.obj [])) with
  | error e =>
    rw [hh] at h
    simp only [bind, Except.bind] at h
    exact Except.noConfusion h
  | ok header =>
    rw [hh] at h
    simp only [bind, Except.bind, Except.ok.injEq] at h
    refine ⟨pyRstrip t, ?_, hasRun_pyRstrip hk hr⟩
    rw [← h]
    simp

theorem hasRun_ne_empty {k : Nat} {s : String} (hk : 0 < k) (h : HasRun k s) :
    ¬ (s == "") = true := by
  intro heq
  rw [beq_iff_eq] at heq
  subst heq
  rw [HasRun, List.infix_nil] at h
  exact absurd h (replicate_tick_ne_nil hk)

theorem formatGroup_run_multi (idx : Nat) (leader : Json × Json)
    (g : List (Json × Json)) (t : String) (efs : List (String × Json))
    (entry : List String) (k : Nat) (sl : Json) (efs' : List (String × Json))
    (tx : String) (hg : g ≠ [])
    (h : formatGroup idx leader g t efs = .ok entry)
    (hmem : (sl, Json.obj efs') ∈ leader :: g)
    (hget : getField efs' "text" = some (.str tx))
    (hk : 0 < k) (hr : HasRun k tx) : ∃ l ∈ entry, HasRun k l := by
  cases g with
  | nil => exact absurd rfl hg
  | cons g0 gs =>
    simp only [formatGroup] at h
    cases hpel : prevEndLine ((g0 :: gs).getLastD leader) with
    | error e =>
      rw [hpel] at h
      simp only [bind, Except.bind] at h
      exact Except.noConfusion h
    | ok lastLine =>
      rw [hpel] at h
      simp only [bind, Except.bind] at h
      cases hparts : consPartsOf (leader :: g0 :: gs) with
      | error e =>
        rw [hparts] at h
        simp only [bind, Except.bind] at h
        exact Except.noConfusion h
      | ok parts =>
        rw [hparts] at h
        simp only [bind, Except.bind] at h
        have hpmem : pyStrip tx ∈ parts :=
          consPartsOf_mem (leader :: g0 :: gs) parts sl efs' tx hparts hmem hget
        have hcc : HasRun k (pyStrip (collapseBlankRuns (strJoinNl parts))) :=
          hasRun_pyStrip hk (hasRun_collapse hk
            (hasRun_joinNl_mem hpmem (hasRun_pyStrip hk hr)))
        rw [if_neg (by
          rw [List.isEmpty_iff]
          exact List.ne_nil_of_mem hpmem)] at h
        rw [if_neg (hasRun_ne_empty hk hcc)] at h
        rw [Except.ok.injEq] at h
        refine ⟨pyStrip (collapseBlankRuns (strJoinNl parts)), ?_, hcc⟩
        rw [← h]
        simp

theorem groupGo_run :
    ∀ (fuel idx : Nat) (lst : List (Json × Json)) (combined : List String) (hc : Bool)
      (sl : Json) (efs : List (String × Json)) (tx : String) (k : Nat),
      lst.length ≤ fuel → groupGo fuel idx lst = .ok (combined, hc) →
      (sl, Json.obj efs) ∈ lst → getField efs "text" = some (.str tx) →
      0 < k → HasRun k tx → ∃ l ∈ combined, HasRun k l := by
  intro fuel
  induction fuel with
  | zero =>
    intro idx lst combined hc sl efs tx k hlen h hmem hget hk hr
    have hnil : lst = [] := List.eq_nil_of_length_eq_zero (Nat.le_zero.mp hlen)
    subst hnil
    exact absurd hmem (List.not_mem_nil _)
  | succ fuel ih =>
    intro idx lst combined hc sl efs tx k hlen h hmem hget hk hr
    cases lst with
    | nil => exact absurd hmem (List.not_mem_nil _)
    | cons hd rest =>
      obtain ⟨s0, e0⟩ := hd
      simp only [groupGo] at h
      cases e0 with
      | obj efs0 =>
        simp only [bind, Except.bind] at h
        cases hts : asStr ((getField efs0 "text").getD (.str "")) with
        | error e =>
          rw [hts] at h
          exact Except.noConfusion h
        | ok t =>
          rw [hts] at h
          cases htg : takeGroupGo (s0, .obj efs0) rest with
          | error e =>
            rw [htg] at h
            simp only [bind, Except.bind] at h
            exact Except.noConfusion h
          | ok pr =>
            obtain ⟨g, rem⟩ := pr
            rw [htg] at h
            simp only [bind, Except.bind] at h
            cases hfg : formatGroup idx (s0, .obj efs0) g t efs0 with
            | error e =>
              rw [hfg] at h
              exact Except.noConfusion h
            | ok entry =>
              rw [hfg] at h
              cases hgg : groupGo fuel (idx + 1 + g.length) rem with
              | error e =>
                rw [hgg] at h
                simp only [bind, Except.bind] at h
                exact Except.noConfusion h
              | ok pr2 =>
                obtain ⟨tlLines, tlHc⟩ := pr2
                rw [hgg] at h
                simp only [bind, Except.bind, Except.ok.injEq] at h
                have hcomb : entry ++ (if rem.isEmpty then ([] : List String) else [""])
                    ++ tlLines = combined := congrArg Prod.fst h
                have hsplit : rest = g ++ rem :=
                  takeGroupGo_append rest (s0, .obj efs0) g rem htg
                rcases List.mem_cons.mp hmem with heq | hmem'
                · have hefs : Json.obj efs = Json.obj efs0 := congrArg Prod.snd heq
                  have hefs' : efs = efs0 := by injection hefs
                  subst hefs'
                  have ht : t = tx := by
                    rw [hget] at hts
                    simp only [Option.getD_some, asStr, Except.ok.injEq] at hts
                    exact hts.symm
                  subst ht
                  cases g with
                  | nil =>
                    obtain ⟨l, hl, hlr⟩ :=
                      formatGroup_run_single idx (s0, .obj efs) t efs entry k hfg hk hr
                    exact ⟨l, by rw [← hcomb]; simp [hl], hlr⟩
                  | cons g0 gs =>
                    obtain ⟨l, hl, hlr⟩ := formatGroup_run_multi idx (s0, .obj efs)
                      (g0 :: gs) t efs entry k sl efs t (by simp) hfg
                      (by rw [heq]; simp) hget hk hr
                    exact ⟨l, by rw [← hcomb]; simp [hl], hlr⟩
                · rw [hsplit] at hmem'
                  rcases List.mem_append.mp hmem' with hmg | hmr
                  · cases g with
                    | nil => exact absurd hmg (List.not_mem_nil _)
                    | cons g0 gs =>
                      obtain ⟨l, hl, hlr⟩ := formatGroup_run_multi idx (s0, .obj efs0)
                        (g0 :: gs) t efs0 entry k sl efs tx (by simp) hfg
                        (List.mem_cons_of_mem _ hmg) hget hk hr
                      exact ⟨l, by rw [← hcomb]; simp [hl], hlr⟩
                  · have hremlen : rem.length ≤ fuel := by
                      have h1 : rest.length ≤ fuel := Nat.succ_le_succ_iff.mp hlen
                      rw [hsplit, List.length_append] at h1
                      omega
                    obtain ⟨l, hl, hlr⟩ := ih (idx + 1 + g.length) rem tlLines tlHc
                      sl efs tx k hremlen hgg hmr hget hk hr
                    exact ⟨l, by rw [← hcomb]; simp [hl], hlr⟩
      | null => exact Except.noConfusion h
      | bool b => exact Except.noConfusion h
      | num n => exact Except.noConfusion h
      | str s => exact Except.noConfusion h
      | arr xs => exact Except.noConfusion h

/-- C1: every backtick run of length `k > 0` in an edit text forces a
strictly longer wrapping fence: the per-edit fence (single and 2-5-edit
branches) exceeds `k`, the consolidated fence exceeds every run surviving
into the combined content, runs in any qualifying edit's text do survive
the strip/join/collapse pipeline into the combined content, and whenever
any edit text contains a ``` marker the consolidated fence is at least 4. -/
theorem claim_C1 :
    (∀ (t : String) (k : Nat), 0 < k → HasRun k t → k < editFence t)
    ∧ (∀ (hasCode : Bool) (final : String) (k : Nat), 0 < k → HasRun k final →
        k < consolidatedFence hasCode final)
    ∧ (∀ final : String, 4 ≤ consolidatedFence true final)
    ∧ (∀ (fuel idx : Nat) (sorted : List (Json × Json)) (combined : List String)
        (hc : Bool) (sl : Json) (efs : List (String × Json)) (tx : String) (k : Nat),
        sorted.length ≤ fuel → groupGo fuel idx sorted = .ok (combined, hc) →
        (sl, Json.obj efs) ∈ sorted → getField efs "text" = some (.str tx) →
        0 < k → HasRun k tx → k < consolidatedFence hc (strJoinNl combined)) := by
  refine ⟨fun t k hk h => editFence_gt hk h,
    fun hasCode final k hk h => consolidatedFence_gt hasCode final hk h,
    consolidatedFence_code, ?_⟩
  intro fuel idx sorted combined hc sl efs tx k hlen h hmem hget hk hr
  obtain ⟨l, hl, hlr⟩ :=
    groupGo_run fuel idx sorted combined hc sl efs tx k hlen h hmem hget hk hr
  exact consolidatedFence_gt hc (strJoinNl combined) hk (hasRun_joinNl_mem hl hlr)

/-- C1 witness: a 2-backtick run gets a 3-backtick per-edit fence, and a
concrete 1-edit consolidation keeps the run in the combined content with a
larger fence. -/
theorem claim_C1_witness :
    (0 < 2 ∧ HasRun 2 "a``b" ∧ 2 < editFence "a``b")
    ∧ groupGo 1 0 [(Json.num 1, Json.obj [("text", Json.str "x``")])]
        = .ok (["# Edit 1:", "x``"], false)
    ∧ 2 < consolidatedFence false (strJoinNl ["# Edit 1:", "x``"]) := by
  refine ⟨⟨by decide, by unfold HasRun; decide,
    claim_C1.1 "a``b" 2 (by decide) (by unfold HasRun; decide)⟩, rfl, ?_⟩
  exact claim_C1.2.2.2 1 0 [(Json.num 1, Json.obj [("text", Json.str "x``")])]
    ["# Edit 1:", "x``"] false (Json.num 1) [("text", Json.str "x``")] "x``" 2
    (by decide) rfl (List.mem_singleton.mpr rfl) rfl (by decide)
    (by unfold HasRun; decide)

/-! ## The Tool Invocation Renderer: `format_tool_invocation_details`
(tool_formatters.py:75-278) and helpers -/

mutual
/-- Structural size of a JSON tree (fuel bound for field-following
recursions). -/
def jsonSize : Json → Nat
  | .null => 1
  | .bool _ => 1
  | .num _ => 1
  | .str _ => 1
  | .arr xs => 1 + jsonSizeList xs
  | .obj fs => 1 + jsonSizeFields fs
def jsonSizeList : List Json → Nat
  | [] => 0
  | x :: xs => jsonSize x + jsonSizeList xs
def jsonSizeFields : List (String × Json) → Nat
  | [] => 0
  | (_, v) :: fs => jsonSize v + jsonSizeFields fs
end

mutual
/-- Lines 26-49: `extract_text_recursive`, collecting `text` fields in
visit order (text, children, value, node). -/
def extractTextRec : Nat → Json → List String
  | 0, _ => []
  | fuel + 1, node =>
    match node with
    | .obj fs =>
      (match getField fs "text" with
       | some (.str t) => if pyStrip t == "" then [] else [t]
       | _ => [])
      ++ (match getField fs "children" with
          | some (.arr cs) => extractTextRecList fuel cs
          | _ => [])
      ++ (match getField fs "value" with
          | some (.obj vfs) => extractTextRec fuel (.obj vfs)
          | _ => [])
      ++ (match getField fs "node" with
          | some n => extractTextRec fuel n
          | none => [])
    | .arr xs => extractTextRecList fuel xs
    | _ => []
def extractTextRecList : Nat → List Json → List String
  | 0, _ => []
  | _ + 1, [] => []
  | fuel + 1, x :: xs => extractTextRec fuel x ++ extractTextRecList fuel xs
end

/-- Lines 14-72: `extract_content_from_tool_result`. -/
def extract_content_from_tool_result (tool_result : Json) : String :=
  if jsonTruthy tool_result = false then ""
  else
    match tool_result with
    | .obj fs =>
      (match (getField fs "content").getD (.arr []) with
       | .arr content =>
         if content.isEmpty then ""
         else
           let text_parts := extractTextRecList (jsonSizeList content + 1) content
           if text_parts.isEmpty then ""
           else
             let full0 := text_parts.foldl (· ++ ·) ""
             let full := pyStrip full0
             if strStarts full "```" && strEnds full "```" then
               let lines := strSplitNl full
               if 2 ≤ lines.length then
                 if strStarts (pyStrip (lines.headD "")) "```"
                     && pyStrip (lines.getLastD "") == "```" then
                   strJoinNl (lines.drop 1 |>.dropLast)
                 else full
               else full
             else full
       | _ => "")
    | _ => ""

/-- Scanner for `re.search(r'\[\]\(file://([^)]+)(\#[^)]+)?\)', msg)`:
the greedy first group swallows every non-`)` character (including any
`#fragment`), so the second group is always empty; returns
`(group0, group1)` of the leftmost match. -/
def fileLinkAt (l : List Char) : Option (List Char × List Char) :=
  if ("[](file://").data.isPrefixOf l then
    let rest := l.drop 10
    let seg := rest.takeWhile (fun c => !(c = ')'))
    if seg.isEmpty then none
    else match rest.drop seg.length with
      | ')' :: _ => some (("[](file://").data ++ seg ++ [')'], seg)
      | _ => none
  else none

def fileLinkGo : List Char → Option (List Char × List Char)
  | [] => none
  | c :: cs =>
    match fileLinkAt (c :: cs) with
    | some r => some r
    | none => fileLinkGo cs

def fileLinkSearch (s : String) : Option (String × String) :=
  match fileLinkGo s.data with
  | some (g0, g1) => some (⟨g0⟩, ⟨g1⟩)
  | none => none

/-- Python `path.split('/')[-1]` (line 94). -/
def splitSlashLast (s : String) : String :=
  ⟨(s.data.reverse.takeWhile (fun c => !(c = '/'))).reverse⟩

/-- Scanner for `re.search(r'(\.\w+)', msg)` (line 211): the first dot
followed by at least one word character, group = dot plus the maximal word
run. -/
def extMatchGo : List Char → Option String
  | [] => none
  | c :: cs =>
    if c = '.' then
      let w := cs.takeWhile isWordChar
      if w.isEmpty then extMatchGo cs else some ⟨'.' :: w⟩
    else extMatchGo cs

/-- Lines 215-226: the extension-to-language map with default `''`. -/
def extLangMap (ext : String) : String :=
  if ext == ".md" then "markdown"
  else if ext == ".py" then "python"
  else if ext == ".js" then "javascript"
  else if ext == ".json" then "json"
  else if ext == ".yaml" then "yaml"
  else if ext == ".yml" then "yaml"
  else if ext == ".html" then "html"
  else if ext == ".css" then "css"
  else if ext == ".sh" then "bash"
  else if ext == ".txt" then "text"
  else ""

/-- Scanner state for `re.match(r'^File:.*?Lines \d+ to \d+.*?:\s*(`+)(\w+)\s*\n', ...)`
tail: after a candidate `:` match `\s*`, a backtick run, a word run and
`\s*\n` (the trailing `\s*` backtracks to the last newline of the
whitespace run); returns backticks, language and the text after the
match. -/
def headerTailAtColon (l : List Char) : Option (List Char × List Char × List Char) :=
  let rest := l.dropWhile pyIsSpace
  let bt := rest.takeWhile (fun c => c = '`')
  if bt.isEmpty then none
  else
    let rest2 := rest.drop bt.length
    let wd := rest2.takeWhile isWordChar
    if wd.isEmpty then none
    else
      let rest3 := rest2.drop wd.length
      let w3 := rest3.takeWhile pyIsSpace
      if ('\n' ∈ w3) then
        some (bt, wd, afterLastNl w3 ++ rest3.drop w3.length)
      else none

/-- The lazy `.*?:` before the fence: try each `:` on the current line in
turn. -/
def colonScanGo : List Char → Option (List Char × List Char × List Char)
  | [] => none
  | c :: cs =>
    if c = '\n' then none
    else if c = ':' then
      match headerTailAtColon cs with
      | some r => some r
      | none => colonScanGo cs
    else colonScanGo cs

/-- Literal `\d+ to \d+` (both digit runs greedy). -/
def digitsTo (l : List Char) : Option (List Char) :=
  let d1 := l.takeWhile Char.isDigit
  if d1.isEmpty then none
  else
    let r1 := l.drop d1.length
    if (" to ").data.isPrefixOf r1 then
      let d2 := (r1.drop 4).takeWhile Char.isDigit
      if d2.isEmpty then none else some ((r1.drop 4).drop d2.length)
    else none

/-- The lazy `.*?Lines ` segment: try successive same-line positions. -/
def linesScanGo : List Char → Option (List Char × List Char × List Char)
  | [] => none
  | c :: cs =>
    match (if ("Lines ").data.isPrefixOf (c :: cs) then
             match digitsTo ((c :: cs).drop 6) with
             | some rest => colonScanGo rest
             | none => none
           else none) with
    | some r => some r
    | none => if c = '\n' then none else linesScanGo cs

/-- Lines 157-158: `re.match(file_header_pattern, content)`; returns
`(backticks, lang, content after the match)`. -/
def fileHeaderMatch (s : String) : Option (String × String × String) :=
  if ("File:").data.isPrefixOf s.data then
    match linesScanGo (s.data.drop 5) with
    | some (bt, wd, rest) => some (⟨bt⟩, ⟨wd⟩, ⟨rest⟩)
    | none => none
  else none

/-- Lines 160-185 and 187-232: the body lines of the content branch. -/
def tidContentBody (original trc : String) : List String :=
  match fileHeaderMatch trc with
  | some (bt, lang, rest) =>
    let sc := if strEnds (pyRstrip rest) bt then
        pyRstrip ⟨(pyRstrip rest).data.take ((pyRstrip rest).data.length - bt.data.length)⟩
      else rest
    let fence := tickStr (max 3 (maxTickRun sc + 1))
    [fence ++ lang, pyRstrip sc, fence]
  | none =>
    if strContains trc "```" then
      let fence := tickStr ((if maxTickRun trc = 0 then 3 else maxTickRun trc) + 1)
      [fence ++ "markdown", pyRstrip trc, fence]
    else
      let ext := if strContains original "file://" then
          (extMatchGo original.data).getD ""
        else ""
      ["```" ++ extLangMap ext, pyRstrip trc, "```"]

/-- Lines 155-236: the whole content branch (`<details>`, summary, blank,
body, blank, `</details>`, trailing blank line). -/
def tidContentRender (msg original trc : String) : String :=
  strJoinNl (["<details>", "  <summary>" ++ msg ++ "</summary>", ""]
    ++ tidContentBody original trc ++ ["", "</details>"]) ++ "\n\n"

/-- Lines 239-278: the no-content fallback (empty input yields `""`,
unparsable string input yields the `Completed with input` shape). -/
def tidFallback (msg : String) (input_data output_data : Json) : String :=
  if jsonTruthy input_data = false then ""
  else
    match (match input_data with
           | .str s => json_loads s
           | _ => .ok input_data) with
    | .error _ =>
      "<details>\n  <summary>" ++ msg ++ "</summary>\n  <p>Completed with input: "
        ++ pyStr input_data ++ "</p>\n</details>\n\n"
    | .ok input_obj =>
      let outLines := if jsonTruthy output_data then
          match output_data with
          | .arr (o0 :: _) =>
            let ov := match o0 with
              | .obj ofs => (getField ofs "value").getD (.str "")
              | _ => .str (pyStr o0)
            ["  <p>Output</p>", "", "```json", pyStr ov, "```", ""]
          | _ => []
        else []
      strJoinNl (["<details>", "  <summary>" ++ msg ++ "</summary>", "  <p>Input</p>", "",
        "```json", dumpsInd 0 input_obj, "```", ""] ++ outLines ++ ["</details>"]) ++ "\n\n"

/-- Lines 128-138: the guarded `try` body matching one `read_file` call;
`none` means the loop continues (any exception is caught as `continue`).
A non-dict `tool_call_results` container is modeled as never matching. -/
def callTryBlock (tcr : Json) (original args : String) (tool_call_id : Json) :
    Option String :=
  match json_loads args with
  | .error _ => none
  | .ok args_dict =>
    match args_dict with
    | .obj afs =>
      let fp := (getField afs "filePath").getD (.str "")
      if jsonTruthy fp then
        match fp with
        | .str fps =>
          if strContains original fps then
            match tcr with
            | .obj rfs =>
              match tool_call_id with
              | .str ids =>
                match getField rfs ids with
                | some tres => some (extract_content_from_tool_result tres)
                | none => none
              | _ => none
            | _ => none
          else none
        | _ => none
      else none
    | _ => none

/-- Lines 119-138: the inner loop over one round's `toolCalls`; `some`
means the Python `break` fired with that content. -/
def callLoop (tcr : Json) (original : String) : List Json → Option String
  | [] => none
  | tc :: rest =>
    match tc with
    | .obj tcfs =>
      if pyEq ((getField tcfs "name").getD (.str "")) (.str "read_file")
          && strContains original "Read" then
        match (getField tcfs "arguments").getD (.str "") with
        | .str args =>
          match callTryBlock tcr original args ((getField tcfs "id").getD (.str "")) with
          | some trc => some trc
          | none => callLoop tcr original rest
        | _ => callLoop tcr original rest
      else callLoop tcr original rest
    | _ => callLoop tcr original rest

/-- Lines 117-140: the outer loop over `tool_call_rounds` with the
`if tool_result_content: break` check after each round. -/
def roundLoop (tcr : Json) (original : String) : List Json → Except String String
  | [] => .ok ""
  | rd :: rest =>
    match rd with
    | .obj rfs =>
      if (getField rfs "toolCalls").isSome then do
        let tcs ← jIterList ((getField rfs "toolCalls").getD .null)
        match callLoop tcr original tcs with
        | some trc => if trc == "" then roundLoop tcr original rest else .ok trc
        | none => roundLoop tcr original rest
      else roundLoop tcr original rest
    | _ => roundLoop tcr original rest

/-- Lines 77-110: extraction and cleanup of the invocation message;
returns `(cleaned message, original message)`. The file-link regex's
greedy first group eats the `#fragment`, so the optional second group is
always empty and the fragment stays inside the displayed name. -/
def tidMessage (tdfs : List (String × Json)) : Except String (String × String) := do
  let past_tense ← (match (getField tdfs "pastTenseMessage").getD (.obj []) with
    | .obj pfs => Except.ok ((getField pfs "value").getD (.str "Ran tool"))
    | _ => Except.error "AttributeError: get")
  let inv0 := (getField tdfs "invocationMessage").getD (.str "")
  let inv1 := match inv0 with
    | .obj ifs => (getField ifs "value").getD (.str "Ran tool")
    | _ => inv0
  let inv2 := if jsonTruthy inv1 then inv1 else past_tense
  let original ← asStr inv2
  let msg1 := if strContains original "[](file://" then
      match fileLinkSearch original with
      | some (g0, g1) =>
        let file_name := splitSlashLast g1
        let i := (findSub g0.data original.data).getD 0
        let remaining : String := ⟨original.data.drop (i + g0.data.length)⟩
        if pyStrip remaining == "" then "Read **" ++ file_name ++ "**"
        else "Read **" ++ file_name ++ "**" ++ remaining
      | none => original
    else original
  .ok (strReplaceAll msg1 "Reading " "Read ", original)

/-- Lines 506-513: `format_progress_task`. -/
def format_progress_task (task_data : Json) : Except String String := do
  let content ← (match task_data with
    | .obj tfs => Except.ok ((getField tfs "content").getD (.obj []))
    | _ => Except.error "AttributeError: get")
  match content with
  | .obj cfs =>
    let value := (getField cfs "value").getD (.str "")
    if jsonTruthy value then .ok ("\n‚úîÔ∏è " ++ pyStr value ++ "\n")
    else .ok ""
  | _ => .ok ""

/-- Line 520-526: the `__TEXT_EDIT_GROUP__` replacement callback (its
`try/except` yields `""` for an unparsable payload). -/
def tegRepl (payload : String) : String :=
  match json_loads payload with
  | .error _ => ""
  | .ok d => format_text_edit_group d

/-- Lines 539-544: the `__PROGRESS_TASK__` replacement callback. -/
def progRepl (payload : String) : String :=
  match json_loads payload with
  | .error _ => ""
  | .ok d =>
    match format_progress_task d with
    | .ok s => s
    | .error _ => ""

/-- `re.sub(r'D(.*?)D', repl, text, flags=re.DOTALL)` for a literal
delimiter `D` and a pure callback: leftmost opening delimiter, lazy
payload up to the nearest closing delimiter, continue after the match. -/
def subMarkers (d : String) (f : String → String) : Nat → String → String
  | 0, text => text
  | fuel + 1, text =>
    match findSub d.data text.data with
    | none => text
    | some i =>
      match findSub d.data (text.data.drop (i + d.data.length)) with
      | none => text
      | some j =>
        ⟨text.data.take i ++ (f ⟨(text.data.drop (i + d.data.length)).take j⟩).data⟩
          ++ subMarkers d f fuel ⟨(text.data.drop (i + d.data.length)).drop (j + d.data.length)⟩

/-- Same as `subMarkers` for a callback that can exhaust the recursion
fuel (the `__TOOL_INVOCATION__` pass). -/
def subMarkersE (d : String) (f : String → Except String String) :
    Nat → String → Except String String
  | 0, text => .ok text
  | fuel + 1, text =>
    match findSub d.data text.data with
    | none => .ok text
    | some i =>
      match findSub d.data (text.data.drop (i + d.data.length)) with
      | none => .ok text
      | some j => do
        let r ← f ⟨(text.data.drop (i + d.data.length)).take j⟩
        let tl ← subMarkersE d f fuel ⟨(text.data.drop (i + d.data.length)).drop (j + d.data.length)⟩
        .ok (⟨text.data.take i ++ r.data⟩ ++ tl)

/-- Line 551: `re.sub(r'([a-z][.!?])\s*(\*\*[A-Z])', r'\1\n\n\2', text)`:
the matched whitespace is dropped and replaced by a blank line. -/
def sub1Go : Nat → List Char → List Char
  | 0, l => l
  | _ + 1, [] => []
  | fuel + 1, c :: cs =>
    match cs with
    | c2 :: rest =>
      if ('a' ≤ c ∧ c ≤ 'z') ∧ (c2 = '.' ∨ c2 = '!' ∨ c2 = '?') then
        match rest.drop (rest.takeWhile pyIsSpace).length with
        | '*' :: '*' :: u :: r3 =>
          if 'A' ≤ u ∧ u ≤ 'Z' then
            c :: c2 :: '\n' :: '\n' :: '*' :: '*' :: u :: sub1Go fuel r3
          else c :: sub1Go fuel cs
        | _ => c :: sub1Go fuel cs
      else c :: sub1Go fuel cs
    | [] => [c]

def spacingSub1 (s : String) : String := ⟨sub1Go (s.data.length + 1) s.data⟩

/-- List-item or header marker after a newline (`(?:\d+\.|#+)`). -/
def sub2Marker (l : List Char) : Option (List Char × List Char) :=
  let ds := l.takeWhile Char.isDigit
  if !ds.isEmpty then
    match l.drop ds.length with
    | '.' :: rest => some (ds ++ ['.'], rest)
    | _ => none
  else
    let hs := l.takeWhile (fun c => c = '#')
    if hs.isEmpty then none else some (hs, l.drop hs.length)

/-- Search for `<details>` at offset at least 1 with no newline before it
(the `j = whole-whitespace-run` arm of the `\s+[^\n]+?` backtracking). -/
def detailsScanGo : List Char → Nat → Option Nat
  | [], _ => none
  | c :: cs, k =>
    if c = '\n' then none
    else if ("<details>").data.isPrefixOf cs then some (k + 1)
    else detailsScanGo cs (k + 1)

/-- Line 555: `re.sub(r'(\n(?:\d+\.|#+)\s+[^\n]+?)(<details>)', r'\1\n\n\2', text)`.
The greedy `\s+` takes the whole whitespace run first; if `<details>`
directly follows the run, one trailing non-newline whitespace character is
given back to `[^\n]+?`. -/
def sub2Go : Nat → List Char → List Char
  | 0, l => l
  | _ + 1, [] => []
  | fuel + 1, c :: cs =>
    if c = '\n' then
      match sub2Marker cs with
      | some (mk, rest) =>
        if (rest.takeWhile pyIsSpace).isEmpty then '\n' :: sub2Go fuel cs
        else
          match detailsScanGo (rest.drop (rest.takeWhile pyIsSpace).length) 0 with
          | some q =>
            '\n' :: (mk ++ rest.take ((rest.takeWhile pyIsSpace).length + q))
              ++ '\n' :: '\n' :: ("<details>").data
              ++ sub2Go fuel ((rest.drop (rest.takeWhile pyIsSpace).length).drop (q + 9))
          | none =>
            if ("<details>").data.isPrefixOf (rest.drop (rest.takeWhile pyIsSpace).length)
                ∧ 2 ≤ (rest.takeWhile pyIsSpace).length
                ∧ (rest.takeWhile pyIsSpace).getLast? ≠ some '\n' then
              '\n' :: (mk ++ rest.takeWhile pyIsSpace)
                ++ '\n' :: '\n' :: ("<details>").data
                ++ sub2Go fuel ((rest.drop (rest.takeWhile pyIsSpace).length).drop 9)
            else '\n' :: sub2Go fuel cs
      | none => '\n' :: sub2Go fuel cs
    else c :: sub2Go fuel cs

def spacingSub2 (s : String) : String := ⟨sub2Go (s.data.length + 1) s.data⟩

/-- Line 557: `re.sub(r'([^\n])(<details>)', r'\1\n\n\2', text)`. -/
def sub3Go : Nat → List Char → List Char
  | 0, l => l
  | _ + 1, [] => []
  | fuel + 1, c :: cs =>
    if c ≠ '\n' ∧ ("<details>").data.isPrefixOf cs then
      c :: '\n' :: '\n' :: (("<details>").data ++ sub3Go fuel (cs.drop 9))
    else c :: sub3Go fuel cs

def spacingSub3 (s : String) : String := ⟨sub3Go (s.data.length + 1) s.data⟩

mutual
/-- Lines 75-278: `format_tool_invocation_details` (fuel bounds the mutual
recursion with the marker pipeline; exhaustion is the distinguished
`"FUEL"` error, never produced by the Python code). -/
def formatTID : Nat → Json → Json → Json → Except String String
  | 0, _, _, _ => .error "FUEL"
  | fuel + 1, tool_data, tcr, trounds => do
    let tdfs ← (match tool_data with
      | .obj tdfs => Except.ok tdfs
      | _ => Except.error "AttributeError: get")
    let pr ← tidMessage tdfs
    let trc ← (if jsonTruthy tcr && jsonTruthy trounds then do
        let rounds ← jIterList trounds
        roundLoop tcr pr.2 rounds
      else Except.ok "")
    let rdfs ← (match (getField tdfs "resultDetails").getD (.obj []) with
      | .obj rdfs => Except.ok rdfs
      | _ => Except.error "AttributeError: get")
    if (pyStrip trc == "") = false then do
      let trc2 ← (if strContains trc "__TOOL_INVOCATION__" then
          processSpecialMarkers fuel trc tcr trounds
        else Except.ok trc)
      Except.ok (tidContentRender pr.1 pr.2 trc2)
    else
      Except.ok (tidFallback pr.1 ((getField rdfs "input").getD (.str ""))
        ((getField rdfs "output").getD (.arr [])))

/-- Lines 516-559: `process_special_markers`: the three marker passes then
the three spacing fixes. -/
def processSpecialMarkers : Nat → String → Json → Json → Except String String
  | 0, _, _, _ => .error "FUEL"
  | fuel + 1, text, tcr, trounds => do
    let t1 := subMarkers "__TEXT_EDIT_GROUP__" tegRepl (text.data.length + 1) text
    let t2 ← subMarkersE "__TOOL_INVOCATION__"
      (fun payload =>
        match json_loads payload with
        | .error _ => Except.ok ""
        | .ok dta =>
          match formatTID fuel dta tcr trounds with
          | .ok s => Except.ok s
          | .error e => if e == "FUEL" then Except.error e else Except.ok "")
      (t1.data.length + 1) t1
    let t3 := subMarkers "__PROGRESS_TASK__" progRepl (t2.data.length + 1) t2
    Except.ok (spacingSub3 (spacingSub2 (spacingSub1 t3)))
end

/-! ## Marker pipeline facts -/

theorem subMarkers_span (d : String) (f : String → String) (fuel : Nat)
    (pre bad post : String)
    (h1 : findSub d.data (pre ++ d ++ bad ++ d ++ post).data = some pre.data.length)
    (h2 : findSub d.data (bad ++ d ++ post).data = some bad.data.length) :
    subMarkers d f (fuel + 1) (pre ++ d ++ bad ++ d ++ post)
      = pre ++ f bad ++ subMarkers d f fuel post := by
  have hdata : (pre ++ d ++ bad ++ d ++ post).data
      = (pre.data ++ d.data) ++ (bad ++ d ++ post).data := by
    simp [String.data_append, List.append_assoc]
  have hdata2 : (bad ++ d ++ post).data = (bad.data ++ d.data) ++ post.data := by
    simp [String.data_append, List.append_assoc]
  have hdrop1 : (pre ++ d ++ bad ++ d ++ post).data.drop (pre.data.length + d.data.length)
      = (bad ++ d ++ post).data := by
    rw [hdata, ← List.length_append, List.drop_left]
  have htake1 : (pre ++ d ++ bad ++ d ++ post).data.take pre.data.length = pre.data := by
    rw [hdata, List.append_assoc]
    rw [List.take_left]
  have htake2 : (bad ++ d ++ post).data.take bad.data.length = bad.data := by
    rw [hdata2, List.append_assoc]
    rw [List.take_left]
  have hdrop2 : (bad ++ d ++ post).data.drop (bad.data.length + d.data.length)
      = post.data := by
    rw [hdata2, ← List.length_append, List.drop_left]
  conv_lhs => rw [subMarkers]
  simp only [h1, hdrop1, h2, htake2, hdrop2, htake1]
  rfl

theorem subMarkersE_error (d : String) (f : String → Except String String) :
    ∀ (n : Nat) (t e : String), subMarkersE d f n t = .error e →
      ∃ p, f p = .error e := by
  intro n
  induction n with
  | zero =>
    intro t e h
    exact absurd h (by simp [subMarkersE])
  | succ n ih =>
    intro t e h
    unfold subMarkersE at h
    cases h1 : findSub d.data t.data with
    | none =>
      simp only [h1] at h
      exact Except.noConfusion h
    | some i =>
      simp only [h1] at h
      cases h2 : findSub d.data (t.data.drop (i + d.data.length)) with
      | none =>
        simp only [h2] at h
        exact Except.noConfusion h
      | some j =>
        simp only [h2] at h
        cases hf : f ⟨(t.data.drop (i + d.data.length)).take j⟩ with
        | error e' =>
          rw [hf] at h
          simp only [bind, Except.bind] at h
          exact ⟨_, by rw [hf]; injection h with h'; rw [h']⟩
        | ok r =>
          rw [hf] at h
          simp only [bind, Except.bind] at h
          cases hrec : subMarkersE d f n ⟨(t.data.drop (i + d.data.length)).drop (j + d.data.length)⟩ with
          | error e' =>
            rw [hrec] at h
            simp only [bind, Except.bind] at h
            injection h with h'
            subst h'
            exact ih _ _ hrec
          | ok tl =>
            rw [hrec] at h
            exact Except.noConfusion h

theorem psm_error_fuel (fuel : Nat) (text : String) (tcr trounds : Json) (e : String)
    (h : processSpecialMarkers fuel text tcr trounds = .error e) : e = "FUEL" := by
  cases fuel with
  | zero =>
    simp only [processSpecialMarkers] at h
    injection h with h'
    exact h'.symm
  | succ fuel =>
    unfold processSpecialMarkers at h
    cases hsm : subMarkersE "__TOOL_INVOCATION__"
        (fun payload =>
          match json_loads payload with
          | .error _ => Except.ok ""
          | .ok dta =>
            match formatTID fuel dta tcr trounds with
            | .ok s => Except.ok s
            | .error e => if e == "FUEL" then Except.error e else Except.ok "")
        ((subMarkers "__TEXT_EDIT_GROUP__" tegRepl (text.data.length + 1) text).data.length + 1)
        (subMarkers "__TEXT_EDIT_GROUP__" tegRepl (text.data.length + 1) text) with
    | ok t2 =>
      simp only [bind, Except.bind, hsm] at h
      exact Except.noConfusion h
    | error e' =>
      simp only [bind, Except.bind, hsm] at h
      injection h with h'
      subst h'
      obtain ⟨p, hp⟩ := subMarkersE_error _ _ _ _ _ hsm
      cases hjl : json_loads p with
      | error e2 =>
        simp only [hjl] at hp
        exact Except.noConfusion hp
      | ok dta =>
        simp only [hjl] at hp
        cases hft : formatTID fuel dta tcr trounds with
        | ok s =>
          simp only [hft] at hp
          exact Except.noConfusion hp
        | error e2 =>
          simp only [hft] at hp
          cases hbeq : e2 == "FUEL" with
          | true =>
            rw [if_pos hbeq] at hp
            injection hp with h2
            rw [← h2]
            exact eq_of_beq hbeq
          | false =>
            rw [if_neg (by simp [hbeq])] at hp
            exact Except.noConfusion hp

/-- C5 example: an unparsable `__TEXT_EDIT_GROUP__` payload followed by a
well-formed `__PROGRESS_TASK__` placeholder. -/
def psmC5ex : String :=
  "a\n__TEXT_EDIT_GROUP__oops__TEXT_EDIT_GROUP__b\n__PROGRESS_TASK__\x7b\"content\": \x7b\"value\": \"hi\"\x7d\x7d__PROGRESS_TASK__c"

/-- Expected pipeline output: the bad span becomes `""`, the progress task
still renders. -/
def psmC5out : String := "a\nb\n\n‚úîÔ∏è hi\nc"

/-- C5: a delimiter-bounded span is replaced by its callback's output on
the payload and scanning continues after the span; when the payload fails
JSON parsing the text-edit-group and progress-task callbacks yield `""`;
`process_special_markers` never fails except for the artificial recursion
fuel of the embedding; on the concrete example the bad span vanishes while
the later placeholder is still rendered. -/
theorem claim_C5 :
    (∀ (d : String) (f : String → String) (fuel : Nat) (pre bad post : String),
      findSub d.data (pre ++ d ++ bad ++ d ++ post).data = some pre.data.length →
      findSub d.data (bad ++ d ++ post).data = some bad.data.length →
      subMarkers d f (fuel + 1) (pre ++ d ++ bad ++ d ++ post)
        = pre ++ f bad ++ subMarkers d f fuel post)
    ∧ (∀ (bad e : String), json_loads bad = .error e → tegRepl bad = "" ∧ progRepl bad = "")
    ∧ (∀ (fuel : Nat) (text : String) (tcr trounds : Json) (e : String),
        processSpecialMarkers fuel text tcr trounds = .error e → e = "FUEL")
    ∧ processSpecialMarkers 1 psmC5ex .null .null = .ok psmC5out := by
  refine ⟨subMarkers_span, ?_, psm_error_fuel, by rfl⟩
  intro bad e h
  constructor
  · unfold tegRepl
    rw [h]
  · unfold progRepl
    rw [h]

/-- C5 witness: the span equation and the empty-replacement facts at
concrete inputs. -/
theorem claim_C5_witness :
    subMarkers "__TEXT_EDIT_GROUP__" tegRepl 1
        ("p" ++ "__TEXT_EDIT_GROUP__" ++ "oops" ++ "__TEXT_EDIT_GROUP__" ++ "q")
      = "p" ++ tegRepl "oops" ++ subMarkers "__TEXT_EDIT_GROUP__" tegRepl 0 "q"
    ∧ tegRepl "oops" = "" ∧ progRepl "oops" = "" := by
  have h2 := claim_C5.2.1 "oops" "ValueError: expecting value" rfl
  exact ⟨claim_C5.1 "__TEXT_EDIT_GROUP__" tegRepl 0 "p" "oops" "q" rfl rfl, h2.1, h2.2⟩

theorem splitNl_nl_cons (y : List Char) : splitNl ('\n' :: y) = [] :: splitNl y := by
  conv_lhs => rw [splitNl]
  rw [if_pos rfl]

theorem mem_strSplitNl_of_data (t pre s : String) (z : List Char)
    (hd : t.data = pre.data ++ '\n' :: (s.data ++ '\n' :: z))
    (hpre : '\n' ∉ pre.data) (hs : '\n' ∉ s.data) : s ∈ strSplitNl t := by
  have h1 : splitNl (s.data ++ '\n' :: z) = (s.data ++ []) :: splitNl z :=
    splitNl_append_no_nl s.data ('\n' :: z)
      (fun c hc he => hs (he ▸ hc)) [] (splitNl z) (splitNl_nl_cons z)
  have h2 : splitNl (pre.data ++ '\n' :: (s.data ++ '\n' :: z))
      = (pre.data ++ []) :: (s.data ++ []) :: splitNl z := by
    rw [splitNl_append_no_nl pre.data ('\n' :: (s.data ++ '\n' :: z))
      (fun c hc he => hpre (he ▸ hc)) [] (splitNl (s.data ++ '\n' :: z))
      (splitNl_nl_cons _), h1]
  unfold strSplitNl
  rw [hd, h2]
  simp

theorem summary_mem_join (pre s : String) (rest : List String) (tail : String)
    (hrest : rest ≠ []) (hpre : '\n' ∉ pre.data) (hs : '\n' ∉ s.data) :
    s ∈ strSplitNl (strJoinNl (pre :: s :: rest) ++ tail) := by
  cases rest with
  | nil => exact absurd rfl hrest
  | cons r rs =>
    refine mem_strSplitNl_of_data _ pre s
      (joinNl ((r :: rs).map String.data) ++ tail.data) ?_ hpre hs
    show (pre.data ++ '\n' :: (s.data ++ '\n' :: joinNl ((r :: rs).map String.data)))
        ++ tail.data = _
    simp [List.append_assoc]

theorem tidContentRender_summary (msg original trc : String)
    (hs : '\n' ∉ ("  <summary>" ++ msg ++ "</summary>").data) :
    ("  <summary>" ++ msg ++ "</summary>")
      ∈ strSplitNl (tidContentRender msg original trc) := by
  unfold tidContentRender
  exact summary_mem_join "<details>" _ ("" :: tidContentBody original trc ++ ["", "</details>"])
    "\n\n" (by simp) (by decide) hs

theorem tidFallback_summary (msg : String) (input output : Json)
    (hs : '\n' ∉ ("  <summary>" ++ msg ++ "</summary>").data) :
    tidFallback msg input output = "" ∨
    ("  <summary>" ++ msg ++ "</summary>")
      ∈ strSplitNl (tidFallback msg input output) := by
  unfold tidFallback
  by_cases ht : jsonTruthy input = false
  · rw [if_pos ht]
    exact Or.inl rfl
  · rw [if_neg ht]
    cases hjl : (match input with | .str s => json_loads s | _ => .ok input) with
    | error e =>
      right
      refine mem_strSplitNl_of_data _ "<details>" _
        (("  <p>Completed with input: " ++ pyStr input ++ "</p>\n</details>\n\n").data)
        ?_ (by decide) hs
      show ("<details>\n  <summary>" ++ msg ++ "</summary>\n  <p>Completed with input: "
        ++ pyStr input ++ "</p>\n</details>\n\n").data = _
      simp only [String.data_append]
      simp [List.append_assoc]
    | ok input_obj =>
      right
      exact summary_mem_join "<details>" _ _ "\n\n" (by simp) (by decide) hs

theorem tidMessage_C9 (tdfs : List (String × Json))
    (hmsg : getField tdfs "invocationMessage"
      = some (.str "Reading [](file:///a/b/c.py#5-9)")) :
    (∃ e, tidMessage tdfs = .error e) ∨
    tidMessage tdfs = .ok ("Read **c.py#5-9**", "Reading [](file:///a/b/c.py#5-9)") := by
  cases hpt : getField tdfs "pastTenseMessage" with
  | none =>
    right
    unfold tidMessage
    rw [hpt, hmsg]
    rfl
  | some p =>
    cases p with
    | obj pfs =>
      right
      unfold tidMessage
      rw [hpt, hmsg]
      rfl
    | null =>
      exact Or.inl ⟨"AttributeError: get", by unfold tidMessage; rw [hpt]; rfl⟩
    | bool b =>
      exact Or.inl ⟨"AttributeError: get", by unfold tidMessage; rw [hpt]; rfl⟩
    | num n =>
      exact Or.inl ⟨"AttributeError: get", by unfold tidMessage; rw [hpt]; rfl⟩
    | str s =>
      exact Or.inl ⟨"AttributeError: get", by unfold tidMessage; rw [hpt]; rfl⟩
    | arr xs =>
      exact Or.inl ⟨"AttributeError: get", by unfold tidMessage; rw [hpt]; rfl⟩

/-- C9: for any tool-invocation record whose `invocationMessage` is
`"Reading [](file:///a/b/c.py#5-9)"` (and any results/rounds context), a
successful render is either empty (no content and falsy input) or contains
the summary line `  <summary>Read **c.py#5-9**</summary>`: the `file://`
link is rewritten to a bold plain filename keeping the `#5-9` fragment,
prefixed by `Read`. -/
theorem claim_C9 (fuel : Nat) (tdfs : List (String × Json)) (tcr trounds : Json)
    (out : String)
    (hmsg : getField tdfs "invocationMessage"
      = some (.str "Reading [](file:///a/b/c.py#5-9)"))
    (h : formatTID fuel (.obj tdfs) tcr trounds = .ok out) :
    out = "" ∨ "  <summary>Read **c.py#5-9**</summary>" ∈ strSplitNl out := by
  cases fuel with
  | zero => exact absurd h (by simp [formatTID])
  | succ fuel =>
    simp only [formatTID, bind, Except.bind] at h
    rcases tidMessage_C9 tdfs hmsg with ⟨e, htm⟩ | htm
    · simp only [htm] at h
      exact Except.noConfusion h
    · simp only [htm] at h
      split at h
      · exact Except.noConfusion h
      · split at h
        · exact Except.noConfusion h
        · split at h
          · split at h
            · exact Except.noConfusion h
            · rw [Except.ok.injEq] at h
              right
              rw [← h]
              rw [show ("  <summary>Read **c.py#5-9**</summary>" : String)
                = "  <summary>" ++ "Read **c.py#5-9**" ++ "</summary>" from rfl]
              exact tidContentRender_summary "Read **c.py#5-9**"
                "Reading [](file:///a/b/c.py#5-9)" _ (by decide)
          · rw [Except.ok.injEq] at h
            rw [← h]
            rw [show ("  <summary>Read **c.py#5-9**</summary>" : String)
              = "  <summary>" ++ "Read **c.py#5-9**" ++ "</summary>" from rfl]
            exact tidFallback_summary "Read **c.py#5-9**" _ _ (by decide)

/-- C9 witness: a concrete record with the `Reading` file link and a JSON
string input renders the expected details block containing the rewritten
summary line. -/
theorem claim_C9_witness :
    formatTID 1 (.obj [("invocationMessage", .str "Reading [](file:///a/b/c.py#5-9)"),
        ("resultDetails", .obj [("input", .str "\x7b\"a\": 1\x7d")])]) .null .null
      = .ok "<details>\n  <summary>Read **c.py#5-9**</summary>\n  <p>Input</p>\n\n```json\n\x7b\n  \"a\": 1\n\x7d\n```\n\n</details>\n\n"
    ∧ ("<details>\n  <summary>Read **c.py#5-9**</summary>\n  <p>Input</p>\n\n```json\n\x7b\n  \"a\": 1\n\x7d\n```\n\n</details>\n\n" = ""
       ∨ "  <summary>Read **c.py#5-9**</summary>"
          ∈ strSplitNl "<details>\n  <summary>Read **c.py#5-9**</summary>\n  <p>Input</p>\n\n```json\n\x7b\n  \"a\": 1\n\x7d\n```\n\n</details>\n\n") :=
  ⟨rfl, claim_C9 1 [("invocationMessage", .str "Reading [](file:///a/b/c.py#5-9)"),
      ("resultDetails", .obj [("input", .str "\x7b\"a\": 1\x7d")])] .null .null _ rfl rfl⟩
